import Mathlib

/-!
# pbly: a link shortener

A shallow embedding of `http/http.go`: the two handlers `rootHandler` and `postHandler`,
the `ServeMux` built by `Serve`, and the instrumented wrapper around it, followed by the
properties proved about them.

The handlers talk to collaborators that are not part of the file: the key-value store `db`,
the configuration (`viper`), the Go standard library (`net/http`, `path`, `net/url`),
`httpsnoop` and the Prometheus client.  The store, the configured token, the URL parser, the
URL printer and the metrics exposition handler are parameters (`Env`).  The library functions
whose behaviour decides what the server answers are embedded as functions: the response
writer, `http.Redirect`, `http.Error`, `path.Clean`, the `ServeMux` of `net/http` (exact and
longest-prefix matching, the redirect of a subtree root without its trailing slash and of a
path that is not clean), `httpsnoop.CaptureMetrics` and `WithLabelValues`.

A handler is a function from the response writer, the request and the process state to the
new response writer and process state; the process state carries the store, the trace of the
effects (body reads, store calls, log lines) and the two metric vectors.  A handler that
panics has no result.
-/

namespace Pbly

/-! ## Strings, headers and the response writer -/

/-- A Go string or byte slice: a sequence of bytes, each byte written as the character with
that code.  The conversion `string(b)` of the source is the identity on this representation. -/
abbrev GoString := List Char

/-- The map `http.Header`: canonical header names with their values. -/
abbrev Header := List (GoString × List GoString)

/-- `Header.Get`: the first value stored under the key, or the empty string. -/
def Header.Get (h : Header) (key : GoString) : GoString :=
  match List.lookup key h with
  | some (v :: _) => v
  | _ => []

/-- `Header.Set`: replaces whatever is stored under the key by the single value. -/
def Header.Set (h : Header) (key value : GoString) : Header :=
  (key, [value]) :: h.filter (fun e => e.1 ≠ key)

/-- The test `_, ok := h[key]`. -/
def Header.has (h : Header) (key : GoString) : Bool :=
  (List.lookup key h).isSome

/-- What a handler has done to its `http.ResponseWriter`: the header map, the status passed to
the first `WriteHeader` (none while no header has been written) and the bytes written. -/
structure ResponseWriter where
  header : Header
  status : Option Nat
  body : GoString
deriving DecidableEq, Repr

/-- The response writer a handler receives. -/
def ResponseWriter.fresh : ResponseWriter := ⟨[], none, []⟩

/-- `w.WriteHeader(code)`: only the first call counts. -/
def ResponseWriter.WriteHeader (w : ResponseWriter) (code : Nat) : ResponseWriter :=
  match w.status with
  | some _ => w
  | none => { w with status := some code }

/-- `w.Write(p)`, also reached through `fmt.Fprint(w, ...)`: writes the header with status 200
when none has been written, then appends the bytes. -/
def ResponseWriter.Write (w : ResponseWriter) (p : GoString) : ResponseWriter :=
  let w1 := w.WriteHeader 200
  { w1 with body := w1.body ++ p }

/-- The status code of the response: 200 when the handler never wrote a header. -/
def ResponseWriter.code (w : ResponseWriter) : Nat := w.status.getD 200

/-- `http.StatusOK` and the other status constants of the source. -/
def StatusOK : Nat := 200
def StatusCreated : Nat := 201
def StatusMovedPermanently : Nat := 301
def StatusSeeOther : Nat := 303
def StatusBadRequest : Nat := 400
def StatusForbidden : Nat := 403
def StatusNotFound : Nat := 404
def StatusUnprocessableEntity : Nat := 422
def StatusInternalServerError : Nat := 500

/-! ## Requests -/

/-- The fields of `url.URL` that the server reads. -/
structure URL where
  Path : GoString
  RawQuery : GoString
deriving DecidableEq, Repr

/-- The request body as `ioutil.ReadAll` sees it: the bytes read and the error, if any. -/
structure Body where
  data : GoString
  err : Option GoString
deriving DecidableEq, Repr

/-- The fields of `http.Request` that the server reads. -/
structure Request where
  Method : GoString
  URL : URL
  Header : Header
  Body : Body
deriving DecidableEq, Repr

/-! ## The Go library functions used by `http.Redirect` and `ServeMux` -/

/-- `strings.Split(s, sep)` for a one-byte separator. -/
def splitOn (sep : Char) : GoString → List GoString
  | [] => [[]]
  | c :: cs =>
    if c = sep then [] :: splitOn sep cs
    else
      match splitOn sep cs with
      | [] => [[c]]
      | seg :: rest => (c :: seg) :: rest

/-- One path element of `path.Clean`, applied to the elements kept so far (last one first):
empty and `.` elements are dropped, `..` removes the element before it, is dropped at the
root and is kept at the start of a relative path. -/
def cleanStep (rooted : Bool) (kept : List GoString) (seg : GoString) : List GoString :=
  if seg = [] ∨ seg = ".".toList then kept
  else if seg = "..".toList then
    match kept with
    | top :: rest => if top = "..".toList then (if rooted then kept else seg :: kept) else rest
    | [] => if rooted then [] else [seg]
  else seg :: kept

/-- `path.Clean`. -/
def Clean (p : GoString) : GoString :=
  let rooted := p.head? = some '/'
  let segs := ((splitOn '/' p).foldl (cleanStep rooted) []).reverse
  let out := (if rooted then ['/'] else []) ++ List.intercalate ['/'] segs
  if out = [] then ['.'] else out

/-- `cleanPath` of `net/http`: the canonical form of a request path, keeping a trailing slash. -/
def cleanPath (p : GoString) : GoString :=
  if p = [] then ['/']
  else
    let p1 := if p.head? = some '/' then p else '/' :: p
    let np := Clean p1
    if p1.getLast? = some '/' ∧ np ≠ ['/'] then np ++ ['/'] else np

/-- The directory part returned by `path.Split`: everything up to and including the last
slash. -/
def splitDir (p : GoString) : GoString :=
  (p.reverse.dropWhile (fun c => c ≠ '/')).reverse

/-- A hexadecimal digit, lower case. -/
def hexDigit (n : Nat) : Char :=
  if n < 10 then Char.ofNat (48 + n) else Char.ofNat (87 + n)

/-- `hexEscapeNonASCII`: every byte from 0x80 on becomes `%` and its two hex digits. -/
def hexEscapeNonASCII : GoString → GoString
  | [] => []
  | c :: cs =>
    if 128 ≤ c.toNat then
      '%' :: hexDigit (c.toNat / 16 % 16) :: hexDigit (c.toNat % 16) :: hexEscapeNonASCII cs
    else c :: hexEscapeNonASCII cs

/-- `htmlEscape`: the replacer for the five characters with an HTML meaning. -/
def htmlEscape : GoString → GoString
  | [] => []
  | c :: cs =>
    (if c = '&' then "&amp;".toList
     else if c = '<' then "&lt;".toList
     else if c = '>' then "&gt;".toList
     else if c = Char.ofNat 34 then "&#34;".toList
     else if c = Char.ofNat 39 then "&#39;".toList
     else [c]) ++ htmlEscape cs

/-- `http.StatusText` for the codes a redirect of this server uses. -/
def StatusText (code : Nat) : GoString :=
  if code = 301 then "Moved Permanently".toList
  else if code = 303 then "See Other".toList
  else []

/-- The rewriting `http.Redirect` applies to a target without scheme and host: a target that
does not start with a slash is put under the directory of the request path, the part before
the query is cleaned with its trailing slash kept, and the query is put back. -/
def absolutize (oldpath0 url0 : GoString) : GoString :=
  let oldpath := if oldpath0 = [] then ['/'] else oldpath0
  let url1 := if url0.head? = some '/' then url0 else splitDir oldpath ++ url0
  let base := url1.takeWhile (fun c => c ≠ '?')
  let query := url1.dropWhile (fun c => c ≠ '?')
  let trailing := base.getLast? = some '/'
  let cleaned := Clean base
  let cleaned1 := if trailing ∧ cleaned.getLast? ≠ some '/' then cleaned ++ ['/'] else cleaned
  cleaned1 ++ query

/-- `http.Redirect(w, r, url, code)`.  The parameter `relativeRef` stands for the call of
`url.Parse`: it tells whether the target parses without error to a URL with empty scheme and
empty host, in which case the target is made absolute against the request path.  The
`Location` header is the target with its non-ASCII bytes escaped; a `GET` request also gets a
small HTML body. -/
def Redirect (relativeRef : GoString → Bool) (w : ResponseWriter) (r : Request)
    (url : GoString) (code : Nat) : ResponseWriter :=
  let url1 := if relativeRef url then absolutize r.URL.Path url else url
  let hadCT := w.header.has "Content-Type".toList
  let h1 := w.header.Set "Location".toList (hexEscapeNonASCII url1)
  let h2 :=
    if ¬ hadCT ∧ (r.Method = "GET".toList ∨ r.Method = "HEAD".toList) then
      h1.Set "Content-Type".toList "text/html; charset=utf-8".toList
    else h1
  let w1 := ({ w with header := h2 }).WriteHeader code
  if ¬ hadCT ∧ r.Method = "GET".toList then
    w1.Write ("<a href=".toList ++ [Char.ofNat 34] ++ htmlEscape url1 ++ [Char.ofNat 34]
      ++ ">".toList ++ StatusText code ++ "</a>.".toList ++ [Char.ofNat 10, Char.ofNat 10])
  else w1

/-- `http.Error(w, msg, code)`: a plain-text reply. -/
def Error (w : ResponseWriter) (msg : GoString) (code : Nat) : ResponseWriter :=
  let h1 := w.header.Set "Content-Type".toList "text/plain; charset=utf-8".toList
  let h2 := h1.Set "X-Content-Type-Options".toList "nosniff".toList
  (({ w with header := h2 }).WriteHeader code).Write (msg ++ [Char.ofNat 10])

/-! ## The store, the metric vectors and the process state -/

/-- The collaborator `db`: `Get(key)` returns the value or an error, `Set(key, value)` returns
an error or nothing, and leaves the store in a new state.  The type `σ` of store states and
the two operations are parameters. -/
structure DB (σ : Type) where
  Get : σ → GoString → Except GoString GoString
  Set : σ → GoString → GoString → Option GoString × σ

/-- A store that behaves as a key-value map: a value written without error is the value read
back, and the other keys read as before. -/
structure DB.Lawful {σ : Type} (db : DB σ) : Prop where
  get_set : ∀ s k v, (db.Set s k v).1 = none → db.Get (db.Set s k v).2 k = .ok v
  get_set_other : ∀ s k v k1, (db.Set s k v).1 = none → k1 ≠ k →
    db.Get (db.Set s k v).2 k1 = db.Get s k1

/-- The label triple `(url, method, status)` of both metric vectors. -/
structure Labels where
  url : GoString
  method : GoString
  status : GoString
deriving DecidableEq, Repr

/-- A metric vector: the series created so far, each with its label triple and value. -/
abbrev Vec (α : Type) := List (Labels × α)

/-- The value of the series with these labels, if the series exists. -/
def Vec.value {α : Type} (v : Vec α) (l : Labels) : Option α := List.lookup l v

/-- Changes the value of the series with these labels, creating the series when absent. -/
def Vec.update {α : Type} (f : Option α → α) (l : Labels) : Vec α → Vec α
  | [] => [(l, f none)]
  | (l1, x) :: rest =>
    if l1 = l then (l, f (some x)) :: rest else (l1, x) :: Vec.update f l rest

/-- `Counter.Inc` on the series with these labels (a new series starts at 0). -/
def Vec.Inc (v : Vec Nat) (l : Labels) : Vec Nat := Vec.update (fun o => o.getD 0 + 1) l v

/-- `Gauge.Set` on the series with these labels. -/
def Vec.Set (v : Vec Int) (l : Labels) (x : Int) : Vec Int := Vec.update (fun _ => x) l v

/-- The sum of all series of a counter vector. -/
def Vec.total (v : Vec Nat) : Nat := (v.map (fun e => e.2)).sum

/-- Whether the byte lies in the closed range. -/
def inRange (lo hi : Nat) (c : Char) : Bool := lo ≤ c.toNat && c.toNat ≤ hi

/-- The scan of `utf8.ValidString`: `pending` lists the ranges in which the next bytes of
the encoding under way must lie; with none pending, a byte below 0x80 stands for itself and
a lead byte announces one, two or three continuation bytes, the first of them in a range that
depends on the lead byte. -/
def validFrom (pending : List (Nat × Nat)) : GoString → Bool
  | [] => pending.isEmpty
  | c :: cs =>
    match pending with
    | (lo, hi) :: rest => inRange lo hi c && validFrom rest cs
    | [] =>
      if c.toNat < 0x80 then validFrom [] cs
      else if inRange 0xC2 0xDF c then validFrom [(0x80, 0xBF)] cs
      else if inRange 0xE0 0xEF c then
        validFrom [(if c.toNat = 0xE0 then 0xA0 else 0x80, if c.toNat = 0xED then 0x9F else 0xBF),
          (0x80, 0xBF)] cs
      else if inRange 0xF0 0xF4 c then
        validFrom [(if c.toNat = 0xF0 then 0x90 else 0x80, if c.toNat = 0xF4 then 0x8F else 0xBF),
          (0x80, 0xBF), (0x80, 0xBF)] cs
      else false

/-- `utf8.ValidString`: the byte sequence is a sequence of well-formed UTF-8 encodings. -/
def ValidString (s : GoString) : Bool := validFrom [] s

/-- `WithLabelValues(url, method, status)` of the Prometheus client: the label triple of the
series, or none where the call panics.  The client validates the label values
(`validateLabelValues`): the number of values is the number of label names, here three, and
each value is valid UTF-8. -/
def WithLabelValues (url method status : GoString) : Option Labels :=
  if ValidString url ∧ ValidString method ∧ ValidString status then some ⟨url, method, status⟩
  else none

/-- The log lines of the source: `log.Printf("Err: %s", err)` in the handlers and the access
line of the wrapper with method, URL, status code, duration and bytes written. -/
inductive LogEntry
  | err (e : GoString)
  | access (method url : GoString) (code : Nat) (dt : Int) (written : Nat)
deriving DecidableEq, Repr

/-- What a request does besides answering: reading the body, calling the store, logging. -/
inductive Event
  | readBody
  | dbGet (k : GoString)
  | dbSet (k v : GoString)
  | log (e : LogEntry)
deriving DecidableEq, Repr

/-- The state of the process: the store, the effects so far in their order, and the two
package-level metric vectors `requestsCounter` and `requestDurationGauge`. -/
structure Server (σ : Type) where
  store : σ
  trace : List Event
  requestsCounter : Vec Nat
  requestDurationGauge : Vec Int
deriving DecidableEq

/-- Records an effect. -/
def Server.emit {σ : Type} (s : Server σ) (e : Event) : Server σ :=
  { s with trace := s.trace ++ [e] }

/-- The number of store calls in a trace. -/
def storeCalls (t : List Event) : Nat :=
  (t.filter (fun e => match e with
    | .dbGet _ => true
    | .dbSet _ _ => true
    | _ => false)).length

/-- The log lines in a trace. -/
def logLines (t : List Event) : List LogEntry :=
  t.filterMap (fun e => match e with
    | .log l => some l
    | _ => none)

/-- Everything outside the source file that the server consults: the configured token
(`viper.GetString("token")`), the store, the classification of a redirect target by
`url.Parse` (see `Redirect`), the rendering `(*url.URL).String()`, and the metrics exposition
handler `promhttp.Handler()`, which reads the metric vectors. -/
structure Env (σ : Type) where
  token : GoString
  db : DB σ
  relativeRef : GoString → Bool
  urlString : URL → GoString
  promhttp : Vec Nat → Vec Int → Request → ResponseWriter → ResponseWriter

/-! ## The handlers of `http.go` -/

/-- `http.MethodPost`. -/
def MethodPost : GoString := "POST".toList

/-- The banner of the landing page. -/
def banner : GoString := "pbly is a link shortener".toList

/-- `rootHandler`.  The result is none where the slice expression `r.URL.Path[len("/"):]`
is out of range. -/
def rootHandler {σ : Type} (env : Env σ) (w : ResponseWriter) (r : Request) (s : Server σ) :
    Option (ResponseWriter × Server σ) :=
  if r.URL.Path.length < "/".toList.length then none
  else
    let k := r.URL.Path.drop "/".toList.length
    if k = [] then
      some (w.Write banner, s)
    else
      match env.db.Get s.store k with
      | .error err =>
        some (w.WriteHeader StatusInternalServerError,
          (s.emit (.dbGet k)).emit (.log (.err err)))
      | .ok b =>
        if b.length < 1 then
          some (w.WriteHeader StatusNotFound, s.emit (.dbGet k))
        else
          some (Redirect env.relativeRef w r b StatusSeeOther, s.emit (.dbGet k))

/-- `postHandler`.  The result is none where the slice expression `r.URL.Path[len("/new/"):]`
is out of range. -/
def postHandler {σ : Type} (env : Env σ) (w : ResponseWriter) (r : Request) (s : Server σ) :
    Option (ResponseWriter × Server σ) :=
  let token := env.token
  if r.Header.Get "Pbly-Token".toList ≠ token then
    some (w.WriteHeader StatusForbidden, s)
  else if r.Method ≠ MethodPost then
    some (w.WriteHeader StatusUnprocessableEntity, s)
  else if r.URL.Path.length < "/new/".toList.length then none
  else
    let k := r.URL.Path.drop "/new/".toList.length
    let s1 := s.emit .readBody
    match r.Body.err with
    | some err =>
      some (w.WriteHeader StatusInternalServerError, s1.emit (.log (.err err)))
    | none =>
      let b := r.Body.data
      let s2 := { s1 with store := (env.db.Set s1.store k b).2 }.emit (.dbSet k b)
      match (env.db.Set s1.store k b).1 with
      | some err =>
        some (w.WriteHeader StatusInternalServerError, s2.emit (.log (.err err)))
      | none =>
        some (w.WriteHeader StatusCreated, s2)

/-! ## The request multiplexer built by `Serve` -/

/-- The handlers a `ServeMux` of this server can select: the three registered ones, and the
ones the multiplexer supplies itself (`NotFoundHandler`, `RedirectHandler` with status 301). -/
inductive Route
  | rootHandler
  | postHandler
  | promhttp
  | notFound
  | redirect (url : GoString)
deriving DecidableEq, Repr

/-- A `ServeMux` without host-specific patterns: the map `m` from pattern to handler and the
slice `es` of the patterns that end in a slash, longest first. -/
structure ServeMux where
  m : List (GoString × Route)
  es : List (GoString × Route)
deriving DecidableEq, Repr

/-- `http.NewServeMux()`. -/
def NewServeMux : ServeMux := ⟨[], []⟩

/-- `appendSorted`: inserts the entry before the first one with a shorter pattern. -/
def appendSorted (es : List (GoString × Route)) (e : GoString × Route) :
    List (GoString × Route) :=
  match es with
  | [] => [e]
  | x :: xs => if x.1.length < e.1.length then e :: x :: xs else x :: appendSorted xs e

/-- `mux.Handle(pattern, handler)`, also reached through `mux.HandleFunc`. -/
def ServeMux.Handle (mux : ServeMux) (pattern : GoString) (h : Route) : ServeMux :=
  { m := (pattern, h) :: mux.m.filter (fun e => e.1 ≠ pattern)
    es := if pattern.getLast? = some '/' then appendSorted mux.es (pattern, h) else mux.es }

/-- The method `match` of `ServeMux`: an exact match first, then the longest pattern ending in
a slash that is a prefix of the path. -/
def ServeMux.matchPath (mux : ServeMux) (path : GoString) : Option Route :=
  match List.lookup path mux.m with
  | some h => some h
  | none => (mux.es.find? (fun e => e.1.isPrefixOf path)).map (fun e => e.2)

/-- `mux.handler(host, path)` with no host-specific pattern registered. -/
def ServeMux.handler (mux : ServeMux) (path : GoString) : Route :=
  (mux.matchPath path).getD Route.notFound

/-- `shouldRedirectRLocked`: the path is not registered, but the path followed by a slash
is. -/
def ServeMux.shouldRedirect (mux : ServeMux) (path : GoString) : Bool :=
  if (List.lookup path mux.m).isSome then false
  else if path.length = 0 then false
  else if (List.lookup (path ++ ['/']) mux.m).isSome then path.getLast? ≠ some '/'
  else false

/-- `mux.Handler(r)`: a `CONNECT` request is matched on its path as it is; the path of any
other request is cleaned first, and the request is redirected when its path is a registered
subtree without the trailing slash or differs from its clean form. -/
def ServeMux.Handler (urlString : URL → GoString) (mux : ServeMux) (r : Request) : Route :=
  if r.Method = "CONNECT".toList then
    if mux.shouldRedirect r.URL.Path then
      Route.redirect (urlString ⟨r.URL.Path ++ ['/'], r.URL.RawQuery⟩)
    else mux.handler r.URL.Path
  else
    let path := cleanPath r.URL.Path
    if mux.shouldRedirect path then
      Route.redirect (urlString ⟨path ++ ['/'], r.URL.RawQuery⟩)
    else if path ≠ r.URL.Path then
      Route.redirect (urlString ⟨path, r.URL.RawQuery⟩)
    else mux.handler r.URL.Path

/-- The multiplexer of `Serve`: `/` goes to `rootHandler`, `/new/` to `postHandler` and
`/metrics/` to the metrics exposition handler. -/
def mux : ServeMux :=
  ((NewServeMux.Handle "/".toList Route.rootHandler).Handle "/new/".toList
    Route.postHandler).Handle "/metrics/".toList Route.promhttp

/-- Runs the selected handler. -/
def Route.ServeHTTP {σ : Type} (env : Env σ) (h : Route) (w : ResponseWriter) (r : Request)
    (s : Server σ) : Option (ResponseWriter × Server σ) :=
  match h with
  | .rootHandler => Pbly.rootHandler env w r s
  | .postHandler => Pbly.postHandler env w r s
  | .promhttp => some (env.promhttp s.requestsCounter s.requestDurationGauge r w, s)
  | .notFound => some (Error w "404 page not found".toList StatusNotFound, s)
  | .redirect url => some (Redirect env.relativeRef w r url StatusMovedPermanently, s)

/-- `mux.ServeHTTP(w, r)`.  A request for `*` is answered with status 400 (the source tests
`r.RequestURI`, which is `*` exactly when the parsed path is `*`; the reply closes the
connection of an HTTP/1.1 request); any other request runs the handler selected by
`mux.Handler`. -/
def ServeMux.ServeHTTP {σ : Type} (env : Env σ) (mux : ServeMux) (w : ResponseWriter)
    (r : Request) (s : Server σ) : Option (ResponseWriter × Server σ) :=
  if r.URL.Path = "*".toList then
    some (({ w with header := w.header.Set "Connection".toList "close".toList }).WriteHeader
      StatusBadRequest, s)
  else (mux.Handler env.urlString r).ServeHTTP env w r s

/-! ## The instrumented wrapper of `Serve` -/

/-- The record `httpsnoop.Metrics`: status code, duration in nanoseconds, bytes written. -/
structure Metrics where
  Code : Nat
  Duration : Int
  Written : Nat
deriving DecidableEq, Repr

/-- `httpsnoop.CaptureMetrics(mux, w, r)` for the response writer the server hands over: runs
the multiplexer and reports the status code (200 unless a header was written), the bytes
written and the measured duration `dt`, a `time.Duration` counting nanoseconds. -/
def CaptureMetrics {σ : Type} (env : Env σ) (r : Request) (dt : Int) (s : Server σ) :
    Option (Metrics × ResponseWriter × Server σ) :=
  match mux.ServeHTTP env ResponseWriter.fresh r s with
  | none => none
  | some (w, s1) => some (⟨w.code, dt, w.body.length⟩, w, s1)

/-- The conversion of a natural number to `float64`, given by the number it denotes: exact
below 2^53, otherwise rounded to 53 significant bits, ties to even. -/
def float64OfNat (n : Nat) : Nat :=
  if n < 2 ^ 53 then n
  else
    let e := Nat.log2 n - 52
    let q := n / 2 ^ e
    let rest := n % 2 ^ e
    let half := 2 ^ (e - 1)
    let up := if half < rest ∨ (rest = half ∧ q % 2 = 1) then 1 else 0
    (q + up) * 2 ^ e

/-- The conversion `float64(d)` of a `time.Duration`, given by the number it denotes. -/
def float64 (d : Int) : Int :=
  if d < 0 then - (float64OfNat d.natAbs : Int) else (float64OfNat d.natAbs : Int)

/-- The formatting `fmt.Sprintf("%d", code)` of a status code. -/
def sprintfD (code : Nat) : GoString := (Nat.repr code).toList

/-- The handler `wrappedMux` of `Serve`, the one passed to `ListenAndServe`, for a request
whose handling takes `dt` nanoseconds: runs the multiplexer under `CaptureMetrics`, writes
the access log line, increments the request counter and sets the duration gauge of the
label triple (URL, method, status code).  The result is an error, carrying the state reached,
where the handler panics: in a handler of the multiplexer or in `WithLabelValues`. -/
def wrappedMux {σ : Type} (env : Env σ) (r : Request) (dt : Int) (s : Server σ) :
    Except (Server σ) (ResponseWriter × Server σ) :=
  match CaptureMetrics env r dt s with
  | none => .error s
  | some (m, w, s1) =>
    let s2 := s1.emit (.log (.access r.Method (env.urlString r.URL) m.Code m.Duration m.Written))
    match WithLabelValues (env.urlString r.URL) r.Method (sprintfD m.Code) with
    | none => .error s2
    | some l =>
      let s3 := { s2 with requestsCounter := s2.requestsCounter.Inc l }
      match WithLabelValues (env.urlString r.URL) r.Method (sprintfD m.Code) with
      | none => .error s3
      | some l1 =>
        .ok (w, { s3 with requestDurationGauge := s3.requestDurationGauge.Set l1 (float64 m.Duration) })

/-- The state in which the server continues after a request, whether its handler returned or
panicked (`net/http` recovers the panic of a handler). -/
def after {σ : Type} (x : Except (Server σ) (ResponseWriter × Server σ)) : Server σ :=
  match x with
  | .error s => s
  | .ok (_, s) => s

/-- Serves the requests one after the other, each with its measured duration. -/
def serveAll {σ : Type} (env : Env σ) : List (Request × Int) → Server σ → Server σ
  | [], s => s
  | (r, dt) :: rest, s => serveAll env rest (after (wrappedMux env r dt s))

/-! ## A reference environment

A concrete store and environment on which the definitions can be run. -/

/-- A key-value map as store: a key that was never written reads as the empty value. -/
def mapDB : DB (List (GoString × GoString)) where
  Get := fun s k => .ok ((List.lookup k s).getD [])
  Set := fun s k v => (none, (k, v) :: s.filter (fun e => e.1 ≠ k))

/-- A store whose calls all fail with the given error. -/
def brokenDB (e : GoString) : DB Unit where
  Get := fun _ _ => .error e
  Set := fun s _ _ => (some e, s)

/-- A reading of `url.Parse` for plain targets (no control bytes, no percent signs): a target
is a relative reference, with empty scheme and host, when no colon comes before its first
slash, question mark or hash, and it does not start with two slashes. -/
def plainRelativeRef (u : GoString) : Bool :=
  !((u.takeWhile (fun c => c ≠ '/' && c ≠ '?' && c ≠ '#')).contains ':')
    && !("//".toList.isPrefixOf u)

/-- The rendering of a URL whose path needs no escaping: the path, and the query after a
question mark when there is one. -/
def plainURLString (u : URL) : GoString :=
  if u.RawQuery = [] then u.Path else u.Path ++ ['?'] ++ u.RawQuery

/-- An environment over a store: the given token, plain targets and URLs, and a metrics
handler that answers with an empty exposition. -/
def mkEnv {σ : Type} (token : GoString) (db : DB σ) : Env σ where
  token := token
  db := db
  relativeRef := plainRelativeRef
  urlString := plainURLString
  promhttp := fun _ _ _ w => w.WriteHeader StatusOK

/-- The state of a server that has served nothing yet, over the given store. -/
def Server.init {σ : Type} (store : σ) : Server σ := ⟨store, [], [], []⟩

/-- A request without query: method, path, the value of the `Pbly-Token` header if the
header is present, and a body that reads without error. -/
def mkRequest (method path : String) (token : Option String) (body : String) : Request where
  Method := method.toList
  URL := ⟨path.toList, []⟩
  Header :=
    match token with
    | some t => [("Pbly-Token".toList, [t.toList])]
    | none => []
  Body := ⟨body.toList, none⟩

/-- The reference environment with the token `secret` over the map store. -/
def env0 : Env (List (GoString × GoString)) := mkEnv "secret".toList mapDB

/-- The reference environment with no token configured: `viper.GetString` returns the empty
string. -/
def envNoToken : Env (List (GoString × GoString)) := mkEnv [] mapDB

/-- The status code of a handler result. -/
def codeOf {σ : Type} (x : Option (ResponseWriter × Server σ)) : Option Nat :=
  x.map (fun p => p.1.code)

/-- The reference environment with the token `secret` over a store whose calls fail. -/
def envBroken : Env Unit := mkEnv "secret".toList (brokenDB "disk failure".toList)

/-- A POST to `/new/foo` with the token `secret` whose body fails to read. -/
def brokenBodyRequest : Request :=
  { mkRequest "POST" "/new/foo" (some "secret") "" with
    Body := ⟨"par".toList, some "unexpected EOF".toList⟩ }

/-- Serves `POST /new/<k>` with the token `secret` and body `v` from the empty map store and
then `GET /<k>`, both through the multiplexer: the status code of the first answer, and the
status code and `Location` header of the second. -/
def writeThenGet (k : String) (v : GoString) : Option (Nat × Nat × GoString) :=
  match mux.ServeHTTP env0 ResponseWriter.fresh
      { mkRequest "POST" ("/new/" ++ k) (some "secret") "" with Body := ⟨v, none⟩ }
      (Server.init []) with
  | none => none
  | some (w1, s1) =>
    match mux.ServeHTTP env0 ResponseWriter.fresh (mkRequest "GET" ("/" ++ k) none "") s1 with
    | none => none
    | some (w2, _) => some (w1.code, w2.code, w2.header.Get "Location".toList)

/-- Whether the handling of a request ended in a panic. -/
def panicked {σ : Type} (x : Except (Server σ) (ResponseWriter × Server σ)) : Bool :=
  match x with
  | .error _ => true
  | .ok _ => false

/-- The request `GET /?q` whose query `q` is the single byte 0xFF, which is not valid UTF-8. -/
def rawQueryRequest : Request :=
  { mkRequest "GET" "/" none "" with URL := ⟨"/".toList, [Char.ofNat 255]⟩ }

/-- The keys whose path `/<k>` the multiplexer hands to `rootHandler`: the path is its own
clean form (no repeated slash, no `.` or `..` element), the key is not `new` or `metrics`,
whose paths are redirected to the subtree with the trailing slash, and the key does not start
with `new/` or `metrics/`, whose paths belong to the other two handlers. -/
def Resolvable (k : GoString) : Prop :=
  cleanPath ('/' :: k) = '/' :: k ∧ k ≠ "new".toList ∧ k ≠ "metrics".toList ∧
    "new/".toList.isPrefixOf k = false ∧ "metrics/".toList.isPrefixOf k = false

instance (k : GoString) : Decidable (Resolvable k) := by
  unfold Resolvable; infer_instance

/-- The keys whose write path `/new/<k>` is its own clean form, so that the multiplexer hands
the path to `postHandler` instead of redirecting to the clean path.  A key whose read path
`/<k>` is clean has a clean write path. -/
def Writable (k : GoString) : Prop :=
  cleanPath ("/new/".toList ++ k) = "/new/".toList ++ k

instance (k : GoString) : Decidable (Writable k) := by
  unfold Writable; infer_instance

/-- The response that reaches the client: the one the handler wrote when the handler returns,
none when it panics.  The server recovers the panic of a handler, logs it and closes the
connection without finishing the response. -/
def responseOf {σ : Type} (x : Except (Server σ) (ResponseWriter × Server σ)) :
    Option ResponseWriter :=
  match x with
  | .error _ => none
  | .ok (w, _) => some w

/-- The handler the multiplexer selects for a request with this method and path and no
query. -/
def routeOf (method path : String) : Route :=
  mux.Handler plainURLString (mkRequest method path none "")

/-- Whether the event is a call of `Get`. -/
def Event.isGet : Event → Bool
  | .dbGet _ => true
  | _ => false

/-- Whether the event is a call of `Set`. -/
def Event.isSet : Event → Bool
  | .dbSet _ _ => true
  | _ => false

/-! ## The multiplexer and the library functions -/

theorem mux_m : mux.m = [("/metrics/".toList, Route.promhttp), ("/new/".toList, Route.postHandler),
    ("/".toList, Route.rootHandler)] := by decide

theorem mux_es : mux.es = [("/metrics/".toList, Route.promhttp), ("/new/".toList, Route.postHandler),
    ("/".toList, Route.rootHandler)] := by decide

theorem lookup_cons_eq {β : Type} (k a : GoString) (b : β) (l : List (GoString × β)) :
    List.lookup k ((a, b) :: l) = if k = a then some b else List.lookup k l := by
  by_cases h : k = a
  · subst h; simp [List.lookup]
  · have : (k == a) = false := by simpa using h
    simp [List.lookup, this, h]

theorem matchPath_eq (p : GoString) : mux.matchPath p =
    if "/metrics/".toList.isPrefixOf p then some Route.promhttp
    else if "/new/".toList.isPrefixOf p then some Route.postHandler
    else if "/".toList.isPrefixOf p then some Route.rootHandler
    else none := by
  unfold ServeMux.matchPath
  rw [mux_m, mux_es]
  simp only [lookup_cons_eq, List.lookup_nil, List.find?_cons, List.find?_nil]
  by_cases h1 : p = "/metrics/".toList
  · subst h1; decide
  by_cases h2 : p = "/new/".toList
  · subst h2; decide
  by_cases h3 : p = "/".toList
  · subst h3; decide
  rw [if_neg h1, if_neg h2, if_neg h3]
  cases "/metrics/".toList.isPrefixOf p <;> cases "/new/".toList.isPrefixOf p <;>
    cases "/".toList.isPrefixOf p <;> rfl


theorem append_slash_eq (p q : GoString) : p ++ ['/'] = q ++ ['/'] ↔ p = q :=
  List.append_left_inj _

theorem shouldRedirect_eq (p : GoString) :
    mux.shouldRedirect p = decide (p = "/new".toList ∨ p = "/metrics".toList) := by
  by_cases h1 : p = "/new".toList
  · subst h1; decide
  by_cases h2 : p = "/metrics".toList
  · subst h2; decide
  have hm : "/metrics/".toList = "/metrics".toList ++ ['/'] := by decide
  have hn : "/new/".toList = "/new".toList ++ ['/'] := by decide
  have hr : "/".toList = ([] : GoString) ++ ['/'] := by decide
  unfold ServeMux.shouldRedirect
  rw [mux_m]
  simp only [lookup_cons_eq, List.lookup_nil]
  by_cases h0 : p = []
  · subst h0; decide
  have h3 : ¬ (p ++ ['/'] = "/metrics/".toList) := by
    rw [hm, append_slash_eq]; exact h2
  have h4 : ¬ (p ++ ['/'] = "/new/".toList) := by
    rw [hn, append_slash_eq]; exact h1
  have h5 : ¬ (p ++ ['/'] = "/".toList) := by
    rw [hr, append_slash_eq]; exact h0
  rw [if_neg h3, if_neg h4, if_neg h5]
  simp only [h1, h2, or_self, decide_False]
  simp only [Option.isSome_none, Bool.false_eq_true, if_false, ite_self]

theorem handler_root (k : GoString) (h1 : "new/".toList.isPrefixOf k = false)
    (h2 : "metrics/".toList.isPrefixOf k = false) : mux.handler ('/' :: k) = Route.rootHandler := by
  have e1 : "/metrics/".toList.isPrefixOf ('/' :: k) = "metrics/".toList.isPrefixOf k := by
    simp [List.isPrefixOf]
  have e2 : "/new/".toList.isPrefixOf ('/' :: k) = "new/".toList.isPrefixOf k := by
    simp [List.isPrefixOf]
  have e3 : "/".toList.isPrefixOf ('/' :: k) = true := by
    simp [List.isPrefixOf]
  rw [ServeMux.handler, matchPath_eq, e1, e2, e3, h1, h2]
  rfl

theorem handler_new (k : GoString) : mux.handler ("/new/".toList ++ k) = Route.postHandler := by
  have e1 : "/metrics/".toList.isPrefixOf ("/new/".toList ++ k) = false := by
    simp [List.isPrefixOf]
  have e2 : "/new/".toList.isPrefixOf ("/new/".toList ++ k) = true := by
    simp [List.isPrefixOf]
  rw [ServeMux.handler, matchPath_eq, e1, e2]
  rfl

theorem Handler_resolvable (u : URL → GoString) (r : Request) (k : GoString)
    (hm : r.Method ≠ "CONNECT".toList) (hp : r.URL.Path = '/' :: k) (hk : Resolvable k) :
    mux.Handler u r = Route.rootHandler := by
  obtain ⟨hc, hn, hme, hpn, hpm⟩ := hk
  have hs : mux.shouldRedirect ('/' :: k) = false := by
    rw [shouldRedirect_eq]
    have a1 : ¬ ('/' :: k = "/new".toList) := by
      intro h; apply hn; simpa using h
    have a2 : ¬ ('/' :: k = "/metrics".toList) := by
      intro h; apply hme; simpa using h
    simp only [a1, a2, or_self, decide_False]
  unfold ServeMux.Handler
  rw [if_neg hm, hp]
  simp only [hc, hs, Bool.false_eq_true, if_false, ne_eq, not_true_eq_false]
  exact handler_root k hpn hpm


theorem Redirect_status (f : GoString → Bool) (w : ResponseWriter) (r : Request) (url : GoString)
    (code : Nat) (hw : w.status = none) : (Redirect f w r url code).status = some code := by
  unfold Redirect
  simp only [ResponseWriter.WriteHeader, ResponseWriter.Write, hw]
  split <;> rfl

theorem Redirect_code (f : GoString → Bool) (r : Request) (url : GoString) (code : Nat) :
    (Redirect f ResponseWriter.fresh r url code).code = code := by
  rw [ResponseWriter.code, Redirect_status f _ r url code rfl]; rfl

theorem Redirect_location (f : GoString → Bool) (r : Request) (url : GoString) (code : Nat) :
    (Redirect f ResponseWriter.fresh r url code).header.Get "Location".toList =
      hexEscapeNonASCII (if f url then absolutize r.URL.Path url else url) := by
  unfold Redirect
  simp only [ResponseWriter.WriteHeader, ResponseWriter.Write, ResponseWriter.fresh]
  split <;> split <;> simp [Header.Get, Header.Set, Header.has, List.lookup]

theorem hexEscapeNonASCII_ascii (v : GoString) (h : ∀ c ∈ v, c.toNat < 128) :
    hexEscapeNonASCII v = v := by
  induction v with
  | nil => rfl
  | cons c cs ih =>
    have hc : ¬ (128 ≤ c.toNat) := by
      have := h c (List.mem_cons_self c cs); omega
    rw [hexEscapeNonASCII, if_neg hc, ih (fun d hd => h d (List.mem_cons_of_mem c hd))]

theorem ServeHTTP_resolvable {σ : Type} (env : Env σ) (w : ResponseWriter) (r : Request)
    (s : Server σ) (k : GoString) (hm : r.Method ≠ "CONNECT".toList)
    (hp : r.URL.Path = '/' :: k) (hk : Resolvable k) :
    mux.ServeHTTP env w r s = rootHandler env w r s := by
  have hstar : ¬ (r.URL.Path = "*".toList) := by
    rw [hp]; intro h; exact absurd (List.cons.inj h).1 (by decide)
  rw [ServeMux.ServeHTTP, if_neg hstar, Handler_resolvable env.urlString r k hm hp hk]
  rfl

theorem rootHandler_key {σ : Type} (env : Env σ) (w : ResponseWriter) (r : Request)
    (s : Server σ) (k : GoString) (hp : r.URL.Path = '/' :: k) (hk : k ≠ []) :
    rootHandler env w r s =
      match env.db.Get s.store k with
      | .error err =>
        some (w.WriteHeader StatusInternalServerError,
          (s.emit (.dbGet k)).emit (.log (.err err)))
      | .ok b =>
        if b.length < 1 then some (w.WriteHeader StatusNotFound, s.emit (.dbGet k))
        else some (Redirect env.relativeRef w r b StatusSeeOther, s.emit (.dbGet k)) := by
  unfold rootHandler
  rw [hp]
  have h1 : ¬ (('/' :: k).length < "/".toList.length) := by
    simp
  have h2 : List.drop "/".toList.length ('/' :: k) = k := by
    simp
  rw [if_neg h1]
  simp only [h2, if_neg hk]

/-! ## Properties of the handlers -/

theorem WriteHeader_fresh (code : Nat) :
    ResponseWriter.fresh.WriteHeader code = ⟨[], some code, []⟩ := rfl

/-- C2. Auth gate first: a request handled by `postHandler` whose `Pbly-Token` header differs
from the configured token gets status 403 with an empty body, for every method, path and body
of the request, and the process state is the one before the request: the body was not read,
the store was not called and is unchanged. -/
theorem postHandler_bad_token {σ : Type} (env : Env σ) (r : Request) (s : Server σ)
    (h : r.Header.Get "Pbly-Token".toList ≠ env.token) :
    postHandler env ResponseWriter.fresh r s = some (⟨[], some 403, []⟩, s) := by
  simp only [postHandler, h, ne_eq, not_false_eq_true, if_true, StatusForbidden,
    WriteHeader_fresh]

theorem postHandler_bad_token_witness :
    (mkRequest "GET" "" (some "guess") "body").Header.Get "Pbly-Token".toList ≠ env0.token ∧
    postHandler env0 ResponseWriter.fresh (mkRequest "GET" "" (some "guess") "body")
      (Server.init []) = some (⟨[], some 403, []⟩, Server.init []) :=
  ⟨by decide, postHandler_bad_token env0 _ _ (by decide)⟩

/-- C3. Method gate: a request handled by `postHandler` with the configured token and a method
other than POST gets status 422 with an empty body, and the process state, the store
included, is unchanged. -/
theorem postHandler_wrong_method {σ : Type} (env : Env σ) (r : Request) (s : Server σ)
    (ht : r.Header.Get "Pbly-Token".toList = env.token) (hm : r.Method ≠ MethodPost) :
    postHandler env ResponseWriter.fresh r s = some (⟨[], some 422, []⟩, s) := by
  simp only [postHandler, ht, hm, ne_eq, not_true_eq_false, not_false_eq_true, if_true,
    if_false, StatusUnprocessableEntity, WriteHeader_fresh]

theorem postHandler_wrong_method_witness :
    (mkRequest "GET" "/new/k" (some "secret") "v").Header.Get "Pbly-Token".toList = env0.token ∧
    (mkRequest "GET" "/new/k" (some "secret") "v").Method ≠ MethodPost ∧
    postHandler env0 ResponseWriter.fresh (mkRequest "GET" "/new/k" (some "secret") "v")
      (Server.init []) = some (⟨[], some 422, []⟩, Server.init []) :=
  ⟨by decide, by decide, postHandler_wrong_method env0 _ _ (by decide) (by decide)⟩

theorem Handler_root_path (u : URL → GoString) (r : Request) (hp : r.URL.Path = "/".toList) :
    mux.Handler u r = Route.rootHandler := by
  have h1 : mux.shouldRedirect "/".toList = false := by decide
  have h2 : cleanPath "/".toList = "/".toList := by decide
  have h3 : mux.handler "/".toList = Route.rootHandler := by decide
  unfold ServeMux.Handler
  rw [hp]
  simp only [h1, h2, h3, Bool.false_eq_true, if_false, ne_eq, not_true_eq_false, ite_self]

/-- C6. Landing page: a request for the path `/`, whatever its method, query, headers and body
and whatever the state of the store, is answered by the multiplexer with status 200 and the
body `pbly is a link shortener`, and leaves the process state as it was: no store call is
made. -/
theorem landing_page {σ : Type} (env : Env σ) (method query : GoString) (h : Header) (b : Body)
    (s : Server σ) :
    mux.ServeHTTP env ResponseWriter.fresh ⟨method, ⟨"/".toList, query⟩, h, b⟩ s =
      some (⟨[], some 200, "pbly is a link shortener".toList⟩, s) := by
  have hstar : ¬ ("/".toList = "*".toList) := by decide
  rw [ServeMux.ServeHTTP]
  simp only [hstar, if_false]
  rw [Handler_root_path env.urlString _ rfl]
  rfl

/-- C8, as stated, fails: with no token configured (the empty string), a POST to `/new/k`
without a `Pbly-Token` header passes the auth gate and is answered with 201, by the handler
and through the multiplexer alike. -/
theorem missing_token_counterexample :
    (mkRequest "POST" "/new/k" none "v").Header.has "Pbly-Token".toList = false ∧
    codeOf (postHandler envNoToken ResponseWriter.fresh (mkRequest "POST" "/new/k" none "v")
      (Server.init [])) = some 201 ∧
    codeOf (mux.ServeHTTP envNoToken ResponseWriter.fresh (mkRequest "POST" "/new/k" none "v")
      (Server.init [])) = some 201 := by
  decide

/-- C8, amended. A request handled by `postHandler` that carries no `Pbly-Token` header is
answered with status 403, the process state unchanged, whenever the configured token is not
the empty string. -/
theorem missing_token_forbidden {σ : Type} (env : Env σ) (r : Request) (s : Server σ)
    (hmiss : r.Header.has "Pbly-Token".toList = false) (htok : env.token ≠ []) :
    postHandler env ResponseWriter.fresh r s = some (⟨[], some 403, []⟩, s) := by
  have hget : r.Header.Get "Pbly-Token".toList = [] := by
    unfold Header.has at hmiss
    unfold Header.Get
    cases hl : List.lookup "Pbly-Token".toList r.Header with
    | none => rfl
    | some v => rw [hl] at hmiss; exact absurd hmiss (by simp)
  have hne : r.Header.Get "Pbly-Token".toList ≠ env.token := by
    rw [hget]; exact fun h => htok h.symm
  simp only [postHandler, hne, ne_eq, not_false_eq_true, if_true, StatusForbidden,
    WriteHeader_fresh]

theorem missing_token_forbidden_witness :
    (mkRequest "POST" "/new/k" none "v").Header.has "Pbly-Token".toList = false ∧
    env0.token ≠ [] ∧
    postHandler env0 ResponseWriter.fresh (mkRequest "POST" "/new/k" none "v") (Server.init [])
      = some (⟨[], some 403, []⟩, Server.init []) :=
  ⟨by decide, by decide, missing_token_forbidden env0 _ _ (by decide) (by decide)⟩

/-- C5, as stated, fails: over a store that holds no value at all, `GET /` (the empty key) is
answered with 200, `GET /new/x` (the key `new/x`) goes to `postHandler` and is answered with
403, and `GET /new` and `GET /a//b` (the keys `new` and `a//b`) are redirected by the
multiplexer with 301. -/
theorem not_found_counterexample :
    (∀ k, mapDB.Get [] k = .ok []) ∧
    codeOf (mux.ServeHTTP env0 ResponseWriter.fresh (mkRequest "GET" "/" none "")
      (Server.init [])) = some 200 ∧
    codeOf (mux.ServeHTTP env0 ResponseWriter.fresh (mkRequest "GET" "/new/x" none "")
      (Server.init [])) = some 403 ∧
    codeOf (mux.ServeHTTP env0 ResponseWriter.fresh (mkRequest "GET" "/new" none "")
      (Server.init [])) = some 301 ∧
    codeOf (mux.ServeHTTP env0 ResponseWriter.fresh (mkRequest "GET" "/a//b" none "")
      (Server.init [])) = some 301 :=
  ⟨fun _ => rfl, by decide, by decide, by decide, by decide⟩

/-- C5, amended. For every non-empty key `k` that the multiplexer resolves (`Resolvable`) and
for which the store returns the empty value without error, `GET /<k>` is answered with status
404 and an empty body, after exactly one call of the store, `Get(k)`. -/
theorem not_found {σ : Type} (env : Env σ) (r : Request) (s : Server σ) (k : GoString)
    (hm : r.Method = "GET".toList) (hp : r.URL.Path = '/' :: k) (hk : k ≠ [])
    (hres : Resolvable k) (hget : env.db.Get s.store k = .ok []) :
    mux.ServeHTTP env ResponseWriter.fresh r s =
      some (⟨[], some 404, []⟩, s.emit (.dbGet k)) := by
  have hc : r.Method ≠ "CONNECT".toList := by
    rw [hm]; decide
  rw [ServeHTTP_resolvable env _ r s k hc hp hres, rootHandler_key env _ r s k hp hk, hget]
  rfl

theorem not_found_witness :
    (mkRequest "GET" "/foo" none "").Method = "GET".toList ∧
    "foo".toList ≠ [] ∧ Resolvable "foo".toList ∧
    env0.db.Get (Server.init []).store "foo".toList = .ok [] ∧
    mux.ServeHTTP env0 ResponseWriter.fresh (mkRequest "GET" "/foo" none "") (Server.init []) =
      some (⟨[], some 404, []⟩, (Server.init []).emit (.dbGet "foo".toList)) :=
  ⟨by decide, by decide, by decide, rfl,
    not_found env0 (mkRequest "GET" "/foo" none "") (Server.init []) "foo".toList (by decide) rfl
      (by decide) (by decide) rfl⟩

theorem postHandler_key {σ : Type} (env : Env σ) (w : ResponseWriter) (r : Request)
    (s : Server σ) (k : GoString) (ht : r.Header.Get "Pbly-Token".toList = env.token)
    (hm : r.Method = MethodPost) (hp : r.URL.Path = "/new/".toList ++ k) :
    postHandler env w r s =
      match r.Body.err with
      | some err =>
        some (w.WriteHeader StatusInternalServerError,
          (s.emit .readBody).emit (.log (.err err)))
      | none =>
        match (env.db.Set s.store k r.Body.data).1 with
        | some err =>
          some (w.WriteHeader StatusInternalServerError,
            (({ s.emit .readBody with store := (env.db.Set s.store k r.Body.data).2 }).emit
              (.dbSet k r.Body.data)).emit (.log (.err err)))
        | none =>
          some (w.WriteHeader StatusCreated,
            ({ s.emit .readBody with store := (env.db.Set s.store k r.Body.data).2 }).emit
              (.dbSet k r.Body.data)) := by
  unfold postHandler
  have h1 : ¬ (("/new/".toList ++ k).length < "/new/".toList.length) := by
    simp
  have h2 : List.drop "/new/".toList.length ("/new/".toList ++ k) = k := by
    simp
  simp only [ht, hm, hp, ne_eq, not_true_eq_false, if_false, h1, h2]
  rfl

/-- C7. Store and body errors are generic: when `Get` fails on the read path (non-empty key),
or the body read fails or `Set` fails on the write path (configured token, method POST), the
response is status 500 with no header and an empty body.  The error value `err` does not occur
in the response, so any two errors get the same response. -/
theorem errors_are_generic {σ : Type} (env : Env σ) (r : Request) (s : Server σ)
    (err : GoString) (k : GoString) :
    (r.URL.Path = '/' :: k → k ≠ [] → env.db.Get s.store k = .error err →
      (rootHandler env ResponseWriter.fresh r s).map Prod.fst = some ⟨[], some 500, []⟩) ∧
    (r.Header.Get "Pbly-Token".toList = env.token → r.Method = MethodPost →
      r.URL.Path = "/new/".toList ++ k → r.Body.err = some err →
      (postHandler env ResponseWriter.fresh r s).map Prod.fst = some ⟨[], some 500, []⟩) ∧
    (r.Header.Get "Pbly-Token".toList = env.token → r.Method = MethodPost →
      r.URL.Path = "/new/".toList ++ k → r.Body.err = none →
      (env.db.Set s.store k r.Body.data).1 = some err →
      (postHandler env ResponseWriter.fresh r s).map Prod.fst = some ⟨[], some 500, []⟩) := by
  refine ⟨?_, ?_, ?_⟩
  · intro hp hk hget
    rw [rootHandler_key env _ r s k hp hk, hget]; rfl
  · intro ht hm hp hb
    rw [postHandler_key env _ r s k ht hm hp, hb]; rfl
  · intro ht hm hp hb hset
    rw [postHandler_key env _ r s k ht hm hp, hb]
    simp only [hset]; rfl

theorem errors_are_generic_witness :
    (rootHandler envBroken ResponseWriter.fresh (mkRequest "GET" "/foo" none "")
      (Server.init ())).map Prod.fst = some ⟨[], some 500, []⟩ ∧
    (postHandler env0 ResponseWriter.fresh brokenBodyRequest (Server.init [])).map Prod.fst =
      some ⟨[], some 500, []⟩ ∧
    (postHandler envBroken ResponseWriter.fresh (mkRequest "POST" "/new/foo" (some "secret") "v")
      (Server.init ())).map Prod.fst = some ⟨[], some 500, []⟩ :=
  ⟨(errors_are_generic envBroken (mkRequest "GET" "/foo" none "") (Server.init ())
      "disk failure".toList "foo".toList).1 rfl (by decide) rfl,
   (errors_are_generic env0 brokenBodyRequest (Server.init [])
      "unexpected EOF".toList "foo".toList).2.1 (by decide) (by decide) rfl rfl,
   (errors_are_generic envBroken (mkRequest "POST" "/new/foo" (some "secret") "v")
      (Server.init ()) "disk failure".toList "foo".toList).2.2 (by decide) (by decide) rfl rfl
      rfl⟩

theorem lookup_filter_ne (s : List (GoString × GoString)) (k k1 : GoString) (h : k1 ≠ k) :
    List.lookup k1 (s.filter (fun e => e.1 ≠ k)) = List.lookup k1 s := by
  induction s with
  | nil => rfl
  | cons e rest ih =>
    obtain ⟨a, b⟩ := e
    by_cases ha : a = k
    · subst ha
      have hf : List.filter (fun e => decide (e.1 ≠ a)) ((a, b) :: rest)
          = List.filter (fun e => decide (e.1 ≠ a)) rest := by
        simp
      rw [hf, ih, lookup_cons_eq, if_neg h]
    · have hf : List.filter (fun e => decide (e.1 ≠ k)) ((a, b) :: rest)
          = (a, b) :: List.filter (fun e => decide (e.1 ≠ k)) rest := by
        simp [ha]
      rw [hf, lookup_cons_eq, lookup_cons_eq, ih]

theorem mapDB_lawful : mapDB.Lawful where
  get_set := by
    intro s k v _
    simp [mapDB, List.lookup]
  get_set_other := by
    intro s k v k1 _ hne
    show Except.ok ((List.lookup k1 ((k, v) :: s.filter (fun e => e.1 ≠ k))).getD [])
      = Except.ok ((List.lookup k1 s).getD [])
    rw [lookup_cons_eq, if_neg hne, lookup_filter_ne s k k1 hne]

/-- C4. Successful write: a request handled by `postHandler` with path `/new/<k>`, the
configured token, method POST, a body `b` that reads without error and a `Set` that succeeds
is answered with status 201 and an empty body.  Its effects are the body read followed by one
store call, `Set(k, b)`, with `k` everything after `/new/` and `b` the body as read; the store
is then the one `Set` leaves, and in a store that behaves as a key-value map it maps `k` to
`b`, whatever it held before: a second successful write of `b2` to `k` leaves `k` mapped to
`b2`. -/
theorem write_succeeds {σ : Type} (env : Env σ) (hl : env.db.Lawful) (r : Request)
    (s : Server σ) (k b : GoString)
    (ht : r.Header.Get "Pbly-Token".toList = env.token) (hm : r.Method = MethodPost)
    (hp : r.URL.Path = "/new/".toList ++ k) (hb : r.Body = ⟨b, none⟩)
    (hs : (env.db.Set s.store k b).1 = none) :
    ∃ s1, postHandler env ResponseWriter.fresh r s = some (⟨[], some 201, []⟩, s1) ∧
      s1.trace = s.trace ++ [Event.readBody, Event.dbSet k b] ∧
      s1.store = (env.db.Set s.store k b).2 ∧
      env.db.Get s1.store k = .ok b ∧
      ∀ (r2 : Request) (b2 : GoString),
        r2.Header.Get "Pbly-Token".toList = env.token → r2.Method = MethodPost →
        r2.URL.Path = "/new/".toList ++ k → r2.Body = ⟨b2, none⟩ →
        (env.db.Set s1.store k b2).1 = none →
        ∃ s2, postHandler env ResponseWriter.fresh r2 s1 = some (⟨[], some 201, []⟩, s2) ∧
          s2.trace = s1.trace ++ [Event.readBody, Event.dbSet k b2] ∧
          env.db.Get s2.store k = .ok b2 := by
  have step : ∀ (r : Request) (s : Server σ) (b : GoString),
      r.Header.Get "Pbly-Token".toList = env.token → r.Method = MethodPost →
      r.URL.Path = "/new/".toList ++ k → r.Body = ⟨b, none⟩ →
      (env.db.Set s.store k b).1 = none →
      ∃ s1, postHandler env ResponseWriter.fresh r s = some (⟨[], some 201, []⟩, s1) ∧
        s1.trace = s.trace ++ [Event.readBody, Event.dbSet k b] ∧
        s1.store = (env.db.Set s.store k b).2 ∧
        env.db.Get s1.store k = .ok b := by
    intro r s b ht hm hp hb hs
    have he : r.Body.err = none := by rw [hb]
    have hd : r.Body.data = b := by rw [hb]
    refine ⟨({ s.emit .readBody with store := (env.db.Set s.store k b).2 }).emit
      (.dbSet k b), ?_, ?_, rfl, ?_⟩
    · rw [postHandler_key env _ r s k ht hm hp, he, hd]
      simp only [hs]; rfl
    · simp [Server.emit]
    · exact hl.get_set s.store k b hs
  obtain ⟨s1, h1, h2, h3, h4⟩ := step r s b ht hm hp hb hs
  refine ⟨s1, h1, h2, h3, h4, ?_⟩
  intro r2 b2 ht2 hm2 hp2 hb2 hs2
  obtain ⟨s2, g1, g2, _, g4⟩ := step r2 s1 b2 ht2 hm2 hp2 hb2 hs2
  exact ⟨s2, g1, g2, g4⟩

theorem write_succeeds_witness :
    env0.db.Lawful ∧
    (mkRequest "POST" "/new/foo" (some "secret") "https://example.com").Header.Get
      "Pbly-Token".toList = env0.token ∧
    (mkRequest "POST" "/new/foo" (some "secret") "https://example.com").Method = MethodPost ∧
    (env0.db.Set (Server.init [("foo".toList, "old".toList)]).store "foo".toList
      "https://example.com".toList).1 = none ∧
    ∃ s1, postHandler env0 ResponseWriter.fresh
        (mkRequest "POST" "/new/foo" (some "secret") "https://example.com")
        (Server.init [("foo".toList, "old".toList)]) = some (⟨[], some 201, []⟩, s1) ∧
      s1.trace = (Server.init [("foo".toList, "old".toList)]).trace
        ++ [Event.readBody, Event.dbSet "foo".toList "https://example.com".toList] ∧
      s1.store = (env0.db.Set (Server.init [("foo".toList, "old".toList)]).store "foo".toList
        "https://example.com".toList).2 ∧
      env0.db.Get s1.store "foo".toList = .ok "https://example.com".toList ∧
      ∀ (r2 : Request) (b2 : GoString),
        r2.Header.Get "Pbly-Token".toList = env0.token → r2.Method = MethodPost →
        r2.URL.Path = "/new/".toList ++ "foo".toList → r2.Body = ⟨b2, none⟩ →
        (env0.db.Set s1.store "foo".toList b2).1 = none →
        ∃ s2, postHandler env0 ResponseWriter.fresh r2 s1 = some (⟨[], some 201, []⟩, s2) ∧
          s2.trace = s1.trace ++ [Event.readBody, Event.dbSet "foo".toList b2] ∧
          env0.db.Get s2.store "foo".toList = .ok b2 :=
  ⟨mapDB_lawful, by decide, by decide, rfl,
    write_succeeds env0 mapDB_lawful
      (mkRequest "POST" "/new/foo" (some "secret") "https://example.com")
      (Server.init [("foo".toList, "old".toList)]) "foo".toList "https://example.com".toList
      (by decide) (by decide) rfl rfl rfl⟩

theorem ServeHTTP_new {σ : Type} (env : Env σ) (w : ResponseWriter) (r : Request)
    (s : Server σ) (k : GoString) (hp : r.URL.Path = "/new/".toList ++ k) :
    mux.ServeHTTP env w r s = postHandler env w r s ∨
    ∃ url, mux.ServeHTTP env w r s =
      some (Redirect env.relativeRef w r url StatusMovedPermanently, s) := by
  have hstar : ¬ (r.URL.Path = "*".toList) := by
    rw [hp]; intro h; exact absurd (List.cons.inj h).1 (by decide)
  have hh : mux.handler r.URL.Path = Route.postHandler := by
    rw [hp]; exact handler_new k
  rw [ServeMux.ServeHTTP, if_neg hstar]
  unfold ServeMux.Handler
  split
  · split
    · exact Or.inr ⟨_, rfl⟩
    · rw [hh]; exact Or.inl rfl
  · simp only []
    split
    · exact Or.inr ⟨_, rfl⟩
    · split
      · exact Or.inr ⟨_, rfl⟩
      · rw [hh]; exact Or.inl rfl

theorem postHandler_created {σ : Type} (env : Env σ) (r : Request) (s : Server σ)
    (k : GoString) (w1 : ResponseWriter) (s1 : Server σ)
    (hp : r.URL.Path = "/new/".toList ++ k)
    (h : postHandler env ResponseWriter.fresh r s = some (w1, s1)) (hc : w1.code = 201) :
    r.Header.Get "Pbly-Token".toList = env.token ∧ r.Method = MethodPost ∧
    r.Body.err = none ∧ (env.db.Set s.store k r.Body.data).1 = none ∧
    s1 = ({ s.emit .readBody with store := (env.db.Set s.store k r.Body.data).2 }).emit
      (.dbSet k r.Body.data) := by
  by_cases ht : r.Header.Get "Pbly-Token".toList = env.token
  swap
  · have h403 : postHandler env ResponseWriter.fresh r s = some (⟨[], some 403, []⟩, s) := by
      simp only [postHandler, ht, ne_eq, not_false_eq_true, if_true, StatusForbidden,
        WriteHeader_fresh]
    rw [h403] at h
    injection h with h; injection h with hw _
    rw [← hw] at hc; exact absurd hc (by decide)
  by_cases hm : r.Method = MethodPost
  swap
  · have h422 : postHandler env ResponseWriter.fresh r s = some (⟨[], some 422, []⟩, s) := by
      simp only [postHandler, ht, hm, ne_eq, not_true_eq_false, not_false_eq_true, if_true,
        if_false, StatusUnprocessableEntity, WriteHeader_fresh]
    rw [h422] at h
    injection h with h; injection h with hw _
    rw [← hw] at hc; exact absurd hc (by decide)
  rw [postHandler_key env _ r s k ht hm hp] at h
  cases he : r.Body.err with
  | some err =>
    rw [he] at h
    injection h with h; injection h with hw _
    rw [← hw] at hc; exact absurd hc (by decide)
  | none =>
    rw [he] at h
    cases hset : (env.db.Set s.store k r.Body.data).1 with
    | some err =>
      simp only [hset] at h
      injection h with h; injection h with hw _
      rw [← hw] at hc; exact absurd hc (by decide)
    | none =>
      simp only [hset] at h
      injection h with h; injection h with _ hs
      exact ⟨ht, hm, rfl, rfl, hs.symm⟩

/-- C1, as stated, fails.  After a successful write (201) of `https://example.com` to the
key `new/x`, `GET /new/x` goes to `postHandler` and is answered with 403; after a successful
write to the empty key, `GET /` is answered with the landing page, 200; after a successful
write of the value `bar` to the key `foo`, `GET /foo` is answered with 303 whose `Location`
is `/bar`, not `bar`; and after a successful write of `http://x/` followed by the byte 0xE9,
the `Location` of the answer ends in the three bytes `%e9`. -/
theorem round_trip_counterexample :
    writeThenGet "new/x" "https://example.com".toList = some (201, 403, []) ∧
    writeThenGet "" "https://example.com".toList = some (201, 200, []) ∧
    writeThenGet "foo" "bar".toList = some (201, 303, "/bar".toList) ∧
    writeThenGet "foo" ("http://x/".toList ++ [Char.ofNat 233]) =
      some (201, 303, "http://x/%e9".toList) := by
  decide

/-- C1, amended. Round trip through the multiplexer, over a store that behaves as a key-value
map: for a non-empty key `k` that the multiplexer resolves (`Resolvable`) and a non-empty
value `v`, once the request for `/new/<k>` with body `v` has been answered with 201 (which
only a POST with the configured token is), a following `GET /<k>` is answered with status 303
after one store call, `Get(k)`.  Its `Location` is the
target `http.Redirect` derives from `v`: the bytes of `v` with the non-ASCII ones escaped when
`v` is not a relative reference, hence `v` itself when `v` is moreover ASCII, and `v` made
absolute against the request path when it is a relative reference. -/
theorem round_trip {σ : Type} (env : Env σ) (hl : env.db.Lawful) (s s1 : Server σ)
    (k v : GoString) (post get : Request) (w1 : ResponseWriter)
    (hk : k ≠ []) (hres : Resolvable k) (hv : v ≠ [])
    (hpp : post.URL.Path = "/new/".toList ++ k) (hpb : post.Body.data = v)
    (hw : mux.ServeHTTP env ResponseWriter.fresh post s = some (w1, s1))
    (h201 : w1.code = 201)
    (hgm : get.Method = "GET".toList) (hgp : get.URL.Path = '/' :: k) :
    ∃ w2, mux.ServeHTTP env ResponseWriter.fresh get s1 = some (w2, s1.emit (.dbGet k)) ∧
      w2.code = 303 ∧
      w2.header.Get "Location".toList =
        hexEscapeNonASCII (if env.relativeRef v then absolutize ('/' :: k) v else v) ∧
      (env.relativeRef v = false → (∀ c ∈ v, c.toNat < 128) →
        w2.header.Get "Location".toList = v) := by
  -- the write went through `postHandler` and `Set` succeeded
  have hpost : postHandler env ResponseWriter.fresh post s = some (w1, s1) := by
    rcases ServeHTTP_new env ResponseWriter.fresh post s k hpp with h | ⟨url, h⟩
    · rw [← h]; exact hw
    · rw [h] at hw
      injection hw with hw; injection hw with hw1 _
      rw [← hw1, Redirect_code] at h201
      exact absurd h201 (by decide)
  obtain ⟨_, _, _, hset, hs1⟩ := postHandler_created env post s k w1 s1 hpp hpost h201
  have hstore : s1.store = (env.db.Set s.store k v).2 := by
    rw [hs1, hpb]; rfl
  have hget : env.db.Get s1.store k = .ok v := by
    rw [hstore]; exact hl.get_set s.store k v (by rw [← hpb]; exact hset)
  -- the read goes to `rootHandler`
  have hc : get.Method ≠ "CONNECT".toList := by
    rw [hgm]; decide
  have hlen : ¬ (v.length < 1) := by
    cases v with
    | nil => exact absurd rfl hv
    | cons c cs => simp
  refine ⟨Redirect env.relativeRef ResponseWriter.fresh get v StatusSeeOther, ?_, ?_, ?_, ?_⟩
  · rw [ServeHTTP_resolvable env _ get s1 k hc hgp hres, rootHandler_key env _ get s1 k hgp hk,
      hget]
    simp only [hlen, if_false]
  · exact Redirect_code _ _ _ _
  · rw [Redirect_location, hgp]
  · intro hrel hascii
    rw [Redirect_location, hrel]
    simp only [Bool.false_eq_true, if_false]
    exact hexEscapeNonASCII_ascii v hascii

theorem round_trip_witness :
    env0.db.Lawful ∧ "foo".toList ≠ [] ∧ Resolvable "foo".toList ∧
    "https://example.com".toList ≠ [] ∧
    mux.ServeHTTP env0 ResponseWriter.fresh
      (mkRequest "POST" "/new/foo" (some "secret") "https://example.com") (Server.init []) =
      some (⟨[], some 201, []⟩,
        ⟨[("foo".toList, "https://example.com".toList)],
          [Event.readBody, Event.dbSet "foo".toList "https://example.com".toList], [], []⟩) ∧
    env0.relativeRef "https://example.com".toList = false ∧
    (∀ c ∈ "https://example.com".toList, c.toNat < 128) ∧
    ∃ w2, mux.ServeHTTP env0 ResponseWriter.fresh (mkRequest "GET" "/foo" none "")
        ⟨[("foo".toList, "https://example.com".toList)],
          [Event.readBody, Event.dbSet "foo".toList "https://example.com".toList], [], []⟩ =
        some (w2, Server.emit ⟨[("foo".toList, "https://example.com".toList)],
          [Event.readBody, Event.dbSet "foo".toList "https://example.com".toList], [], []⟩
          (.dbGet "foo".toList)) ∧
      w2.code = 303 ∧
      w2.header.Get "Location".toList =
        hexEscapeNonASCII (if env0.relativeRef "https://example.com".toList then
          absolutize ('/' :: "foo".toList) "https://example.com".toList
          else "https://example.com".toList) ∧
      (env0.relativeRef "https://example.com".toList = false →
        (∀ c ∈ "https://example.com".toList, c.toNat < 128) →
        w2.header.Get "Location".toList = "https://example.com".toList) :=
  ⟨mapDB_lawful, by decide, by decide, by decide, by decide, by decide, by decide,
    round_trip env0 mapDB_lawful (Server.init []) _ "foo".toList "https://example.com".toList
      (mkRequest "POST" "/new/foo" (some "secret") "https://example.com")
      (mkRequest "GET" "/foo" none "") ⟨[], some 201, []⟩
      (by decide) (by decide) (by decide) rfl rfl (by decide) rfl rfl rfl⟩

/-! ## Totality of the multiplexer, metric vectors and label values -/

theorem Handler_cases (u : URL → GoString) (r : Request) :
    (∃ url, mux.Handler u r = Route.redirect url) ∨ mux.Handler u r = mux.handler r.URL.Path := by
  unfold ServeMux.Handler
  split
  · split
    · exact Or.inl ⟨_, rfl⟩
    · exact Or.inr rfl
  · simp only []
    split
    · exact Or.inl ⟨_, rfl⟩
    · split
      · exact Or.inl ⟨_, rfl⟩
      · exact Or.inr rfl

theorem handler_cases (p : GoString) :
    (mux.handler p = Route.promhttp) ∨
    (mux.handler p = Route.postHandler ∧ ∃ k, p = "/new/".toList ++ k) ∨
    (mux.handler p = Route.rootHandler ∧ ∃ k, p = '/' :: k) ∨
    (mux.handler p = Route.notFound) := by
  rw [ServeMux.handler, matchPath_eq]
  cases h1 : "/metrics/".toList.isPrefixOf p
  · cases h2 : "/new/".toList.isPrefixOf p
    · cases h3 : "/".toList.isPrefixOf p
      · exact Or.inr (Or.inr (Or.inr rfl))
      · refine Or.inr (Or.inr (Or.inl ⟨rfl, ?_⟩))
        obtain ⟨k, hk⟩ := List.isPrefixOf_iff_prefix.mp h3
        exact ⟨k, hk.symm⟩
    · refine Or.inr (Or.inl ⟨rfl, ?_⟩)
      obtain ⟨k, hk⟩ := List.isPrefixOf_iff_prefix.mp h2
      exact ⟨k, hk.symm⟩
  · exact Or.inl rfl

theorem rootHandler_total {σ : Type} (env : Env σ) (w : ResponseWriter) (r : Request)
    (s : Server σ) (k : GoString) (hp : r.URL.Path = '/' :: k) :
    ∃ w1 s1, rootHandler env w r s = some (w1, s1) ∧
      s1.requestsCounter = s.requestsCounter ∧
      s1.requestDurationGauge = s.requestDurationGauge := by
  by_cases hk : k = []
  · subst hk
    refine ⟨w.Write banner, s, ?_, rfl, rfl⟩
    unfold rootHandler; rw [hp]; rfl
  · rw [rootHandler_key env w r s k hp hk]
    cases env.db.Get s.store k with
    | error e => exact ⟨_, _, rfl, rfl, rfl⟩
    | ok b =>
      by_cases hb : b.length < 1
      · simp only [hb, if_true]; exact ⟨_, _, rfl, rfl, rfl⟩
      · simp only [hb, if_false]; exact ⟨_, _, rfl, rfl, rfl⟩

theorem postHandler_total {σ : Type} (env : Env σ) (w : ResponseWriter) (r : Request)
    (s : Server σ) (k : GoString) (hp : r.URL.Path = "/new/".toList ++ k) :
    ∃ w1 s1, postHandler env w r s = some (w1, s1) ∧
      s1.requestsCounter = s.requestsCounter ∧
      s1.requestDurationGauge = s.requestDurationGauge := by
  by_cases ht : r.Header.Get "Pbly-Token".toList = env.token
  swap
  · refine ⟨w.WriteHeader StatusForbidden, s, ?_, rfl, rfl⟩
    simp only [postHandler, ht, ne_eq, not_false_eq_true, if_true]
  by_cases hm : r.Method = MethodPost
  swap
  · refine ⟨w.WriteHeader StatusUnprocessableEntity, s, ?_, rfl, rfl⟩
    simp only [postHandler, ht, hm, ne_eq, not_true_eq_false, not_false_eq_true, if_true,
      if_false]
  rw [postHandler_key env w r s k ht hm hp]
  cases r.Body.err with
  | some e => exact ⟨_, _, rfl, rfl, rfl⟩
  | none =>
    cases hset : (env.db.Set s.store k r.Body.data).1 with
    | some e => simp only [hset]; exact ⟨_, _, rfl, rfl, rfl⟩
    | none => simp only [hset]; exact ⟨_, _, rfl, rfl, rfl⟩

theorem ServeHTTP_total {σ : Type} (env : Env σ) (w : ResponseWriter) (r : Request)
    (s : Server σ) :
    ∃ w1 s1, mux.ServeHTTP env w r s = some (w1, s1) ∧
      s1.requestsCounter = s.requestsCounter ∧
      s1.requestDurationGauge = s.requestDurationGauge := by
  unfold ServeMux.ServeHTTP
  split
  · exact ⟨_, _, rfl, rfl, rfl⟩
  · rcases Handler_cases env.urlString r with ⟨url, h⟩ | h
    · rw [h]; exact ⟨_, _, rfl, rfl, rfl⟩
    · rw [h]
      rcases handler_cases r.URL.Path with h1 | ⟨h1, k, hk⟩ | ⟨h1, k, hk⟩ | h1
      · rw [h1]; exact ⟨_, _, rfl, rfl, rfl⟩
      · rw [h1]; exact postHandler_total env w r s k hk
      · rw [h1]; exact rootHandler_total env w r s k hk
      · rw [h1]; exact ⟨_, _, rfl, rfl, rfl⟩


theorem lookup_cons_labels {β : Type} (k a : Labels) (b : β) (l : List (Labels × β)) :
    List.lookup k ((a, b) :: l) = if k = a then some b else List.lookup k l := by
  by_cases h : k = a
  · subst h; simp [List.lookup]
  · have : (k == a) = false := by simpa using h
    simp [List.lookup, this, h]

theorem value_update_self {α : Type} (f : Option α → α) (l : Labels) (v : Vec α) :
    (Vec.update f l v).value l = some (f (v.value l)) := by
  induction v with
  | nil => simp [Vec.update, Vec.value, List.lookup]
  | cons e rest ih =>
    obtain ⟨l1, x⟩ := e
    unfold Vec.value at ih ⊢
    by_cases h : l1 = l
    · subst h
      simp only [Vec.update, if_true, lookup_cons_labels]
    · have h1 : ¬ (l = l1) := fun e => h e.symm
      simp only [Vec.update, if_neg h, lookup_cons_labels, if_neg h1]
      exact ih

theorem value_update_other {α : Type} (f : Option α → α) (l l1 : Labels) (v : Vec α)
    (hne : l1 ≠ l) : (Vec.update f l v).value l1 = v.value l1 := by
  induction v with
  | nil => simp [Vec.update, Vec.value, lookup_cons_labels, hne]
  | cons e rest ih =>
    obtain ⟨l2, x⟩ := e
    unfold Vec.value at ih ⊢
    by_cases h : l2 = l
    · subst h
      simp only [Vec.update, if_true, lookup_cons_labels, if_neg hne]
    · simp only [Vec.update, if_neg h, lookup_cons_labels]
      rw [ih]

theorem total_Inc (v : Vec Nat) (l : Labels) : (v.Inc l).total = v.total + 1 := by
  induction v with
  | nil => simp [Vec.Inc, Vec.update, Vec.total]
  | cons e rest ih =>
    obtain ⟨l1, x⟩ := e
    unfold Vec.Inc Vec.total at ih ⊢
    by_cases h : l1 = l
    · simp only [Vec.update, if_pos h, List.map_cons, List.sum_cons, Option.getD_some]
      omega
    · simp only [Vec.update, if_neg h, List.map_cons, List.sum_cons, ih]
      omega

theorem ValidString_of_ascii (s : GoString) (h : ∀ c ∈ s, c.toNat < 128) :
    ValidString s = true := by
  induction s with
  | nil => rfl
  | cons c cs ih =>
    have hc : c.toNat < 0x80 := h c (List.mem_cons_self c cs)
    have ih1 := ih (fun d hd => h d (List.mem_cons_of_mem c hd))
    unfold ValidString at ih1 ⊢
    rw [validFrom, if_pos hc]
    exact ih1

theorem digitChar_ascii (d : Nat) (hd : d < 10) : (Nat.digitChar d).toNat < 128 := by
  interval_cases d <;> decide

theorem toDigitsCore_ascii (fuel : Nat) : ∀ (n : Nat) (ds : List Char),
    (∀ c ∈ ds, c.toNat < 128) → ∀ c ∈ Nat.toDigitsCore 10 fuel n ds, c.toNat < 128 := by
  induction fuel with
  | zero => intro n ds h; simpa [Nat.toDigitsCore] using h
  | succ f ih =>
    intro n ds h
    have hd : (Nat.digitChar (n % 10)).toNat < 128 :=
      digitChar_ascii _ (Nat.mod_lt _ (by decide))
    have hcons : ∀ c ∈ Nat.digitChar (n % 10) :: ds, c.toNat < 128 := by
      intro c hc
      rcases List.mem_cons.mp hc with e | e
      · rw [e]; exact hd
      · exact h c e
    unfold Nat.toDigitsCore
    simp only []
    split
    · exact hcons
    · exact ih _ _ hcons

theorem sprintfD_valid (n : Nat) : ValidString (sprintfD n) = true := by
  apply ValidString_of_ascii
  exact toDigitsCore_ascii _ _ _ (fun c hc => absurd hc (List.not_mem_nil c))

/-! ## Properties of the instrumented wrapper -/

/-- The wrapper on a request whose URL and method are valid label values: the multiplexer
answers, the access line is logged, the counter series of the label triple (URL, method,
status code) is incremented and the gauge series of the same triple is set to the duration in
nanoseconds. -/
theorem wrappedMux_valid {σ : Type} (env : Env σ) (r : Request) (dt : Int) (s : Server σ)
    (hu : ValidString (env.urlString r.URL) = true) (hm : ValidString r.Method = true) :
    ∃ w s1, mux.ServeHTTP env ResponseWriter.fresh r s = some (w, s1) ∧
      wrappedMux env r dt s = .ok (w,
        { store := s1.store
          trace := s1.trace ++
            [Event.log (LogEntry.access r.Method (env.urlString r.URL) w.code dt w.body.length)]
          requestsCounter :=
            s.requestsCounter.Inc ⟨env.urlString r.URL, r.Method, sprintfD w.code⟩
          requestDurationGauge :=
            s.requestDurationGauge.Set ⟨env.urlString r.URL, r.Method, sprintfD w.code⟩
              (float64 dt) }) := by
  obtain ⟨w, s1, h, hc, hg⟩ := ServeHTTP_total env ResponseWriter.fresh r s
  refine ⟨w, s1, h, ?_⟩
  have hl : WithLabelValues (env.urlString r.URL) r.Method (sprintfD w.code)
      = some ⟨env.urlString r.URL, r.Method, sprintfD w.code⟩ := by
    unfold WithLabelValues
    rw [if_pos ⟨hu, hm, sprintfD_valid _⟩]
  unfold wrappedMux CaptureMetrics
  rw [h]
  simp only [hl, Server.emit, hc, hg]

/-- The metrics after a request whose URL and method are valid label values: the counter
series of its label triple is one more than before (a new series counts 1), the gauge series
of the triple holds the duration, every other series of both vectors is as before, and the
sum of the counter series has grown by one. -/
theorem wrappedMux_metrics {σ : Type} (env : Env σ) (r : Request) (dt : Int) (s : Server σ)
    (hu : ValidString (env.urlString r.URL) = true) (hm : ValidString r.Method = true) :
    ∃ w s2, wrappedMux env r dt s = .ok (w, s2) ∧
      s2.requestsCounter.value ⟨env.urlString r.URL, r.Method, sprintfD w.code⟩ =
        some ((s.requestsCounter.value
          ⟨env.urlString r.URL, r.Method, sprintfD w.code⟩).getD 0 + 1) ∧
      (∀ l1, l1 ≠ ⟨env.urlString r.URL, r.Method, sprintfD w.code⟩ →
        s2.requestsCounter.value l1 = s.requestsCounter.value l1) ∧
      s2.requestDurationGauge.value ⟨env.urlString r.URL, r.Method, sprintfD w.code⟩ =
        some (float64 dt) ∧
      (∀ l1, l1 ≠ ⟨env.urlString r.URL, r.Method, sprintfD w.code⟩ →
        s2.requestDurationGauge.value l1 = s.requestDurationGauge.value l1) ∧
      s2.requestsCounter.total = s.requestsCounter.total + 1 := by
  obtain ⟨w, s1, _, hw⟩ := wrappedMux_valid env r dt s hu hm
  refine ⟨w, _, hw, ?_, ?_, ?_, ?_, ?_⟩
  · exact value_update_self _ _ _
  · intro l1 h; exact value_update_other _ _ _ _ h
  · exact value_update_self _ _ _
  · intro l1 h; exact value_update_other _ _ _ _ h
  · exact total_Inc _ _

/-- Over requests whose URL and method are valid label values, every request adds one to the
sum of the counter series. -/
theorem serveAll_total {σ : Type} (env : Env σ) (reqs : List (Request × Int)) :
    ∀ (s : Server σ),
    (∀ p ∈ reqs, ValidString (env.urlString p.1.URL) = true ∧ ValidString p.1.Method = true) →
    (serveAll env reqs s).requestsCounter.total = s.requestsCounter.total + reqs.length := by
  induction reqs with
  | nil => intro s _; rfl
  | cons p rest ih =>
    intro s h
    obtain ⟨r, dt⟩ := p
    have hp := h (r, dt) (List.mem_cons_self _ _)
    obtain ⟨w, s1, _, hw⟩ := wrappedMux_valid env r dt s hp.1 hp.2
    rw [serveAll, hw, ih _ (fun q hq => h q (List.mem_cons_of_mem _ hq))]
    simp only [after, total_Inc, List.length_cons]
    omega

/-- C9, at a failing input.  The request `GET /?q` with the byte 0xFF as query is answered by
the multiplexer with 200, but the wrapper then panics in `WithLabelValues`, because the URL
is not a valid label value: the access line is logged, no series of the request counter is
incremented and no series of the duration gauge is set, so after this one request the
counter series sum to 0. -/
theorem request_not_counted :
    codeOf (mux.ServeHTTP env0 ResponseWriter.fresh rawQueryRequest (Server.init [])) = some 200 ∧
    panicked (wrappedMux env0 rawQueryRequest 1000 (Server.init [])) = true ∧
    (after (wrappedMux env0 rawQueryRequest 1000 (Server.init []))).trace =
      [Event.log (LogEntry.access "GET".toList ['/', '?', Char.ofNat 255] 200 1000 24)] ∧
    (after (wrappedMux env0 rawQueryRequest 1000 (Server.init []))).requestsCounter = [] ∧
    (after (wrappedMux env0 rawQueryRequest 1000 (Server.init []))).requestDurationGauge = [] ∧
    (serveAll env0 [(rawQueryRequest, 1000)] (Server.init [])).requestsCounter.total = 0 := by
  decide

/-- C10, at a failing input.  A request `GET /` measured at 2000 nanoseconds, which is 2
microseconds, sets the duration gauge of its label triple to 2000: the gauge holds the
`time.Duration` converted as it is, a count of nanoseconds. -/
theorem duration_gauge_holds_nanoseconds :
    (after (wrappedMux env0 (mkRequest "GET" "/" none "") 2000
      (Server.init []))).requestDurationGauge.value ⟨"/".toList, "GET".toList, "200".toList⟩
      = some 2000 ∧
    (2000 : Int) / 1000 = 2 := by
  decide

/-! ## Dispatch and key extraction -/

/-- C15. Key extraction stays in bounds: a request the multiplexer dispatches to `rootHandler`
has a path of length at least 1, a request it dispatches to `postHandler` has a path of
length at least 5 that begins with `/new/`, and for every request the multiplexer returns a
response: neither handler panics on its slice expression. -/
theorem key_extraction_in_bounds {σ : Type} (env : Env σ) (w : ResponseWriter) (r : Request)
    (s : Server σ) :
    (mux.Handler env.urlString r = Route.rootHandler →
      1 ≤ r.URL.Path.length ∧ ∃ w1 s1, rootHandler env w r s = some (w1, s1)) ∧
    (mux.Handler env.urlString r = Route.postHandler →
      5 ≤ r.URL.Path.length ∧ "/new/".toList.isPrefixOf r.URL.Path = true ∧
      ∃ w1 s1, postHandler env w r s = some (w1, s1)) ∧
    ∃ w1 s1, mux.ServeHTTP env w r s = some (w1, s1) := by
  refine ⟨?_, ?_, ?_⟩
  · intro h
    rcases Handler_cases env.urlString r with ⟨url, hr⟩ | hr
    · rw [hr] at h; exact absurd h (by simp)
    · rw [hr] at h
      rcases handler_cases r.URL.Path with h1 | ⟨h1, _⟩ | ⟨_, k, hk⟩ | h1
      · rw [h1] at h; exact absurd h (by simp)
      · rw [h1] at h; exact absurd h (by simp)
      · obtain ⟨w1, s1, h2, _⟩ := rootHandler_total env w r s k hk
        refine ⟨?_, w1, s1, h2⟩
        rw [hk]; simp
      · rw [h1] at h; exact absurd h (by simp)
  · intro h
    rcases Handler_cases env.urlString r with ⟨url, hr⟩ | hr
    · rw [hr] at h; exact absurd h (by simp)
    · rw [hr] at h
      rcases handler_cases r.URL.Path with h1 | ⟨_, k, hk⟩ | ⟨h1, _⟩ | h1
      · rw [h1] at h; exact absurd h (by simp)
      · obtain ⟨w1, s1, h2, _⟩ := postHandler_total env w r s k hk
        refine ⟨?_, ?_, w1, s1, h2⟩
        · rw [hk]; simp
        · rw [hk]; simp
      · rw [h1] at h; exact absurd h (by simp)
      · rw [h1] at h; exact absurd h (by simp)
  · obtain ⟨w1, s1, h, _⟩ := ServeHTTP_total env w r s
    exact ⟨w1, s1, h⟩

theorem key_extraction_in_bounds_witness :
    (5 ≤ (mkRequest "POST" "/new/" none "").URL.Path.length ∧
      "/new/".toList.isPrefixOf (mkRequest "POST" "/new/" none "").URL.Path = true ∧
      ∃ w1 s1, postHandler env0 ResponseWriter.fresh (mkRequest "POST" "/new/" none "")
        (Server.init []) = some (w1, s1)) ∧
    (1 ≤ (mkRequest "GET" "/" none "").URL.Path.length ∧
      ∃ w1 s1, rootHandler env0 ResponseWriter.fresh (mkRequest "GET" "/" none "")
        (Server.init []) = some (w1, s1)) :=
  ⟨(key_extraction_in_bounds env0 ResponseWriter.fresh (mkRequest "POST" "/new/" none "")
      (Server.init [])).2.1 (by decide),
   (key_extraction_in_bounds env0 ResponseWriter.fresh (mkRequest "GET" "/" none "")
      (Server.init [])).1 (by decide)⟩

/-! ## Store calls -/

theorem storeCalls_append (t u : List Event) : storeCalls (t ++ u) = storeCalls t + storeCalls u := by
  simp [storeCalls, List.filter_append]

theorem rootHandler_effects {σ : Type} (env : Env σ) (w : ResponseWriter) (r : Request)
    (s : Server σ) (w1 : ResponseWriter) (s1 : Server σ)
    (h : rootHandler env w r s = some (w1, s1)) :
    s1.store = s.store ∧
    ∃ t, s1.trace = s.trace ++ t ∧ storeCalls t ≤ 1 ∧ ∀ e ∈ t, e.isSet = false := by
  unfold rootHandler at h
  by_cases hl : r.URL.Path.length < "/".toList.length
  · rw [if_pos hl] at h; exact absurd h (by simp)
  rw [if_neg hl] at h
  simp only [] at h
  generalize List.drop "/".toList.length r.URL.Path = k at h
  by_cases hk : k = []
  · rw [if_pos hk] at h
    injection h with h; injection h with _ hs
    rw [← hs]; exact ⟨rfl, [], by simp, by decide, by simp⟩
  rw [if_neg hk] at h
  have one : ∀ e ∈ [Event.dbGet k], e.isSet = false := by
    intro e he
    simp only [List.mem_singleton] at he
    rw [he]; rfl
  cases hget : env.db.Get s.store k with
  | error err =>
    rw [hget] at h
    injection h with h; injection h with _ hs
    rw [← hs]
    refine ⟨rfl, [Event.dbGet k, Event.log (LogEntry.err err)], by simp [Server.emit],
      by simp [storeCalls], ?_⟩
    intro e he
    simp only [List.mem_cons, List.mem_singleton, List.not_mem_nil, or_false] at he
    rcases he with e1 | e1 <;> rw [e1] <;> rfl
  | ok b =>
    rw [hget] at h
    by_cases hb : b.length < 1
    · simp only [hb, if_true] at h
      injection h with h; injection h with _ hs
      rw [← hs]
      exact ⟨rfl, [Event.dbGet k], by simp [Server.emit], by simp [storeCalls], one⟩
    · simp only [hb, if_false] at h
      injection h with h; injection h with _ hs
      rw [← hs]
      exact ⟨rfl, [Event.dbGet k], by simp [Server.emit], by simp [storeCalls], one⟩

theorem postHandler_effects {σ : Type} (env : Env σ) (w : ResponseWriter) (r : Request)
    (s : Server σ) (w1 : ResponseWriter) (s1 : Server σ)
    (h : postHandler env w r s = some (w1, s1)) :
    ∃ t, s1.trace = s.trace ++ t ∧ storeCalls t ≤ 1 ∧ ∀ e ∈ t, e.isGet = false := by
  unfold postHandler at h
  simp only [] at h
  by_cases ht : r.Header.Get "Pbly-Token".toList ≠ env.token
  · rw [if_pos ht] at h
    injection h with h; injection h with _ hs
    rw [← hs]; exact ⟨[], by simp, by decide, by simp⟩
  rw [if_neg ht] at h
  by_cases hm : r.Method ≠ MethodPost
  · rw [if_pos hm] at h
    injection h with h; injection h with _ hs
    rw [← hs]; exact ⟨[], by simp, by decide, by simp⟩
  rw [if_neg hm] at h
  by_cases hl : r.URL.Path.length < "/new/".toList.length
  · rw [if_pos hl] at h; exact absurd h (by simp)
  rw [if_neg hl] at h
  generalize List.drop "/new/".toList.length r.URL.Path = k at h
  cases he : r.Body.err with
  | some err =>
    rw [he] at h
    injection h with h; injection h with _ hs
    rw [← hs]
    refine ⟨[Event.readBody, Event.log (LogEntry.err err)], by simp [Server.emit],
      by simp [storeCalls], ?_⟩
    intro e he
    simp only [List.mem_cons, List.mem_singleton, List.not_mem_nil, or_false] at he
    rcases he with e1 | e1 <;> rw [e1] <;> rfl
  | none =>
    rw [he] at h
    simp only [] at h
    cases hset : (env.db.Set (s.emit Event.readBody).store k r.Body.data).1 with
    | some err =>
      rw [hset] at h
      injection h with h; injection h with _ hs
      rw [← hs]
      refine ⟨[Event.readBody, Event.dbSet k r.Body.data, Event.log (LogEntry.err err)],
        by simp [Server.emit], by simp [storeCalls], ?_⟩
      intro e he
      simp only [List.mem_cons, List.mem_singleton, List.not_mem_nil, or_false] at he
      rcases he with e1 | e1 | e1 <;> rw [e1] <;> rfl
    | none =>
      rw [hset] at h
      injection h with h; injection h with _ hs
      rw [← hs]
      refine ⟨[Event.readBody, Event.dbSet k r.Body.data], by simp [Server.emit],
        by simp [storeCalls], ?_⟩
      intro e he
      simp only [List.mem_cons, List.mem_singleton, List.not_mem_nil, or_false] at he
      rcases he with e1 | e1 <;> rw [e1] <;> rfl

theorem ServeHTTP_effects {σ : Type} (env : Env σ) (w : ResponseWriter) (r : Request)
    (s : Server σ) (w1 : ResponseWriter) (s1 : Server σ)
    (h : mux.ServeHTTP env w r s = some (w1, s1)) :
    ∃ t, s1.trace = s.trace ++ t ∧ storeCalls t ≤ 1 := by
  have same : ∀ (x : ResponseWriter), some (x, s) = some (w1, s1) →
      ∃ t, s1.trace = s.trace ++ t ∧ storeCalls t ≤ 1 := by
    intro x hx
    injection hx with hx; injection hx with _ hs
    rw [← hs]; exact ⟨[], by simp, by decide⟩
  unfold ServeMux.ServeHTTP at h
  split at h
  · exact same _ h
  · cases hr : mux.Handler env.urlString r with
    | rootHandler =>
      rw [hr] at h
      obtain ⟨_, t, h1, h2, _⟩ := rootHandler_effects env w r s w1 s1 h
      exact ⟨t, h1, h2⟩
    | postHandler =>
      rw [hr] at h
      obtain ⟨t, h1, h2, _⟩ := postHandler_effects env w r s w1 s1 h
      exact ⟨t, h1, h2⟩
    | promhttp => rw [hr] at h; exact same _ h
    | notFound => rw [hr] at h; exact same _ h
    | redirect url => rw [hr] at h; exact same _ h

theorem wrappedMux_effects {σ : Type} (env : Env σ) (r : Request) (dt : Int) (s : Server σ) :
    ∃ t, (after (wrappedMux env r dt s)).trace = s.trace ++ t ∧ storeCalls t ≤ 1 := by
  obtain ⟨w, s1, hS, _, _⟩ := ServeHTTP_total env ResponseWriter.fresh r s
  obtain ⟨t, ht, hc⟩ := ServeHTTP_effects env ResponseWriter.fresh r s w s1 hS
  have hcount : storeCalls (t ++ [Event.log (LogEntry.access r.Method (env.urlString r.URL)
      w.code dt w.body.length)]) ≤ 1 := by
    rw [storeCalls_append]
    have : storeCalls [Event.log (LogEntry.access r.Method (env.urlString r.URL)
      w.code dt w.body.length)] = 0 := rfl
    omega
  refine ⟨t ++ [Event.log (LogEntry.access r.Method (env.urlString r.URL) w.code dt
    w.body.length)], ?_, hcount⟩
  unfold wrappedMux CaptureMetrics
  rw [hS]
  simp only []
  cases hl : WithLabelValues (env.urlString r.URL) r.Method (sprintfD w.code) with
  | none => simp only [after, Server.emit, ht, List.append_assoc]
  | some l => simp only [after, Server.emit, ht, List.append_assoc]

/-- C13. At most one store call per request and no cross-path access.  Whatever the request,
the effects it adds to the trace, through the wrapper and through the multiplexer alike,
contain at most one call of the store.  Whenever `rootHandler` answers, the store is the one
before the request, so every key reads as before, and its effects contain no call of `Set`;
whenever `postHandler` answers, its effects contain no call of `Get`. -/
theorem store_calls_bounded {σ : Type} (env : Env σ) (r : Request) (dt : Int) (s : Server σ)
    (w : ResponseWriter) :
    (∃ t, (after (wrappedMux env r dt s)).trace = s.trace ++ t ∧ storeCalls t ≤ 1) ∧
    (∃ w1 s1 t, mux.ServeHTTP env w r s = some (w1, s1) ∧ s1.trace = s.trace ++ t ∧
      storeCalls t ≤ 1) ∧
    (∀ w1 s1, rootHandler env w r s = some (w1, s1) →
      s1.store = s.store ∧ (∀ k, env.db.Get s1.store k = env.db.Get s.store k) ∧
      ∃ t, s1.trace = s.trace ++ t ∧ storeCalls t ≤ 1 ∧ ∀ e ∈ t, e.isSet = false) ∧
    (∀ w1 s1, postHandler env w r s = some (w1, s1) →
      ∃ t, s1.trace = s.trace ++ t ∧ storeCalls t ≤ 1 ∧ ∀ e ∈ t, e.isGet = false) := by
  refine ⟨wrappedMux_effects env r dt s, ?_, ?_, ?_⟩
  · obtain ⟨w1, s1, hS, _, _⟩ := ServeHTTP_total env w r s
    obtain ⟨t, ht, hc⟩ := ServeHTTP_effects env w r s w1 s1 hS
    exact ⟨w1, s1, t, hS, ht, hc⟩
  · intro w1 s1 h
    obtain ⟨h1, h2⟩ := rootHandler_effects env w r s w1 s1 h
    exact ⟨h1, fun k => by rw [h1], h2⟩
  · intro w1 s1 h
    exact postHandler_effects env w r s w1 s1 h

theorem store_calls_bounded_witness :
    (∃ t, ((⟨[], [Event.dbGet "foo".toList], [], []⟩ : Server (List (GoString × GoString))).trace
        = (Server.init ([] : List (GoString × GoString))).trace ++ t) ∧ storeCalls t ≤ 1 ∧
      ∀ e ∈ t, e.isSet = false) ∧
    (∃ t, ((⟨[("foo".toList, "v".toList)],
        [Event.readBody, Event.dbSet "foo".toList "v".toList], [], []⟩ :
          Server (List (GoString × GoString))).trace
        = (Server.init ([] : List (GoString × GoString))).trace ++ t) ∧ storeCalls t ≤ 1 ∧
      ∀ e ∈ t, e.isGet = false) :=
  ⟨((store_calls_bounded env0 (mkRequest "GET" "/foo" none "") 0 (Server.init [])
      ResponseWriter.fresh).2.2.1 ⟨[], some 404, []⟩
      ⟨[], [Event.dbGet "foo".toList], [], []⟩ (by decide)).2.2,
   (store_calls_bounded env0 (mkRequest "POST" "/new/foo" (some "secret") "v") 0 (Server.init [])
      ResponseWriter.fresh).2.2.2 ⟨[], some 201, []⟩
      ⟨[("foo".toList, "v".toList)], [Event.readBody, Event.dbSet "foo".toList "v".toList],
        [], []⟩ (by decide)⟩

/-! ## Dispatch by prefix -/

theorem Clean_rooted (p : GoString) (h : p.head? = some '/') : ∃ k, Clean p = '/' :: k := by
  have e : Clean p =
      '/' :: List.intercalate ['/'] ((splitOn '/' p).foldl (cleanStep true) []).reverse := by
    unfold Clean
    simp [h]
  exact ⟨_, e⟩

theorem cleanPath_rooted (p : GoString) : ∃ k, cleanPath p = '/' :: k := by
  unfold cleanPath
  by_cases hp : p = []
  · rw [if_pos hp]; exact ⟨[], rfl⟩
  rw [if_neg hp]
  simp only []
  generalize hp1 : (if p.head? = some '/' then p else '/' :: p) = p1
  have hh : p1.head? = some '/' := by
    rw [← hp1]
    split
    · assumption
    · rfl
  obtain ⟨k, hk⟩ := Clean_rooted p1 hh
  rw [hk]
  by_cases hc : p1.getLast? = some '/' ∧ '/' :: k ≠ ['/']
  · rw [if_pos hc]; exact ⟨k ++ ['/'], rfl⟩
  · rw [if_neg hc]; exact ⟨k, rfl⟩

theorem ServeHTTP_clean {σ : Type} (env : Env σ) (w : ResponseWriter) (r : Request)
    (s : Server σ) (hm : r.Method ≠ "CONNECT".toList)
    (hc : cleanPath r.URL.Path = r.URL.Path) (hn : r.URL.Path ≠ "/new".toList)
    (hme : r.URL.Path ≠ "/metrics".toList) :
    mux.ServeHTTP env w r s =
      if "/new/".toList.isPrefixOf r.URL.Path then postHandler env w r s
      else if "/metrics/".toList.isPrefixOf r.URL.Path then
        some (env.promhttp s.requestsCounter s.requestDurationGauge r w, s)
      else rootHandler env w r s := by
  obtain ⟨k, hk⟩ := cleanPath_rooted r.URL.Path
  rw [hc] at hk
  have hstar : ¬ (r.URL.Path = "*".toList) := by
    rw [hk]; intro h; exact absurd (List.cons.inj h).1 (by decide)
  have hs : mux.shouldRedirect r.URL.Path = false := by
    rw [shouldRedirect_eq]
    simp only [hn, hme, or_self, decide_False]
  have hH : mux.Handler env.urlString r = mux.handler r.URL.Path := by
    unfold ServeMux.Handler
    rw [if_neg hm]
    simp only [hc, hs, Bool.false_eq_true, if_false, ne_eq, not_true_eq_false]
  have hroot : "/".toList.isPrefixOf r.URL.Path = true := by
    rw [hk]; simp [List.isPrefixOf]
  rw [ServeMux.ServeHTTP, if_neg hstar, hH, ServeMux.handler, matchPath_eq, hroot]
  cases h1 : "/metrics/".toList.isPrefixOf r.URL.Path
  · cases h2 : "/new/".toList.isPrefixOf r.URL.Path
    · rfl
    · rfl
  · have h2 : "/new/".toList.isPrefixOf r.URL.Path = false := by
      obtain ⟨t, ht⟩ := List.isPrefixOf_iff_prefix.mp h1
      rw [← ht]
      simp [List.isPrefixOf]
    rw [h2]
    rfl

theorem ServeHTTP_unclean {σ : Type} (env : Env σ) (w : ResponseWriter) (r : Request)
    (s : Server σ) (hm : r.Method ≠ "CONNECT".toList) (hstar : r.URL.Path ≠ "*".toList)
    (h : cleanPath r.URL.Path ≠ r.URL.Path ∨ cleanPath r.URL.Path = "/new".toList ∨
      cleanPath r.URL.Path = "/metrics".toList) :
    mux.ServeHTTP env w r s =
      some (Redirect env.relativeRef w r
        (env.urlString ⟨if cleanPath r.URL.Path = "/new".toList ∨
            cleanPath r.URL.Path = "/metrics".toList
          then cleanPath r.URL.Path ++ ['/'] else cleanPath r.URL.Path, r.URL.RawQuery⟩)
        StatusMovedPermanently, s) := by
  rw [ServeMux.ServeHTTP, if_neg hstar]
  unfold ServeMux.Handler
  rw [if_neg hm]
  simp only [shouldRedirect_eq]
  by_cases hr : cleanPath r.URL.Path = "/new".toList ∨ cleanPath r.URL.Path = "/metrics".toList
  · simp only [hr, decide_True, if_true]
    rfl
  · have hne : cleanPath r.URL.Path ≠ r.URL.Path := by
      rcases h with h | h | h
      · exact h
      · exact absurd (Or.inl h) hr
      · exact absurd (Or.inr h) hr
    simp only [hr, decide_False, Bool.false_eq_true, if_false, hne, ne_eq, not_false_eq_true,
      if_true]
    rfl

theorem ServeHTTP_star {σ : Type} (env : Env σ) (w : ResponseWriter) (r : Request)
    (s : Server σ) (hp : r.URL.Path = "*".toList) :
    mux.ServeHTTP env w r s =
      some (({ w with header := w.header.Set "Connection".toList "close".toList }).WriteHeader
        StatusBadRequest, s) := by
  rw [ServeMux.ServeHTTP, if_pos hp]

theorem ServeHTTP_connect {σ : Type} (env : Env σ) (w : ResponseWriter) (r : Request)
    (s : Server σ) (hm : r.Method = "CONNECT".toList) (hstar : r.URL.Path ≠ "*".toList) :
    mux.ServeHTTP env w r s =
      if r.URL.Path = "/new".toList ∨ r.URL.Path = "/metrics".toList then
        some (Redirect env.relativeRef w r
          (env.urlString ⟨r.URL.Path ++ ['/'], r.URL.RawQuery⟩) StatusMovedPermanently, s)
      else if "/new/".toList.isPrefixOf r.URL.Path then postHandler env w r s
      else if "/metrics/".toList.isPrefixOf r.URL.Path then
        some (env.promhttp s.requestsCounter s.requestDurationGauge r w, s)
      else if "/".toList.isPrefixOf r.URL.Path then rootHandler env w r s
      else some (Error w "404 page not found".toList StatusNotFound, s) := by
  rw [ServeMux.ServeHTTP, if_neg hstar]
  unfold ServeMux.Handler
  rw [if_pos hm]
  simp only [shouldRedirect_eq]
  by_cases hr : r.URL.Path = "/new".toList ∨ r.URL.Path = "/metrics".toList
  · simp only [hr, decide_True, if_true]
    rfl
  · simp only [hr, decide_False, Bool.false_eq_true, if_false]
    rw [ServeMux.handler, matchPath_eq]
    cases h1 : "/metrics/".toList.isPrefixOf r.URL.Path
    · cases h2 : "/new/".toList.isPrefixOf r.URL.Path
      · cases h3 : "/".toList.isPrefixOf r.URL.Path <;> rfl
      · rfl
    · have h2 : "/new/".toList.isPrefixOf r.URL.Path = false := by
        obtain ⟨t, ht⟩ := List.isPrefixOf_iff_prefix.mp h1
        rw [← ht]
        simp [List.isPrefixOf]
      rw [h2]
      rfl

theorem rootHandler_asks {σ : Type} (env : Env σ) (w : ResponseWriter) (r : Request)
    (s : Server σ) (k : GoString) (hp : r.URL.Path = '/' :: k) (hk : k ≠ []) :
    ∃ w1 s1 t, rootHandler env w r s = some (w1, s1) ∧
      s1.trace = s.trace ++ Event.dbGet k :: t := by
  rw [rootHandler_key env w r s k hp hk]
  cases env.db.Get s.store k with
  | error err => exact ⟨_, _, [Event.log (LogEntry.err err)], rfl, by simp [Server.emit]⟩
  | ok b =>
    by_cases hb : b.length < 1
    · simp only [hb, if_true]; exact ⟨_, _, [], rfl, by simp [Server.emit]⟩
    · simp only [hb, if_false]; exact ⟨_, _, [], rfl, by simp [Server.emit]⟩

/-- C14, as stated, fails.  `GET /new` and `GET /metrics` are not resolved as the keys `new`
and `metrics`: the multiplexer answers them itself with a redirect (301) to `/new/` and
`/metrics/`, and the store is not called; a CONNECT request for `/new` is redirected
likewise.  `GET /new/../x` begins with `/new/` and `GET /metrics/./` begins with `/metrics/`,
but neither reaches the handler of that prefix, and `GET /a//b`, which begins with neither,
does not reach `rootHandler`: a path that is not clean is redirected to its clean form.
`GET *`, which begins with neither prefix, is answered by the multiplexer with 400.  A CONNECT
request is matched on its path as it is: with the empty path, which begins with neither
prefix, it gets the not-found handler of the multiplexer, 404, not `rootHandler`. -/
theorem dispatch_counterexample :
    routeOf "GET" "/new" = Route.redirect "/new/".toList ∧
    routeOf "GET" "/metrics" = Route.redirect "/metrics/".toList ∧
    (mux.ServeHTTP env0 ResponseWriter.fresh (mkRequest "GET" "/new" none "")
      (Server.init [])).map (fun p => (p.1.code, p.2.trace)) = some (301, []) ∧
    routeOf "CONNECT" "/new" = Route.redirect "/new/".toList ∧
    routeOf "GET" "/new/../x" = Route.redirect "/x".toList ∧
    routeOf "GET" "/metrics/./" = Route.redirect "/metrics/".toList ∧
    routeOf "GET" "/a//b" = Route.redirect "/a/b".toList ∧
    (mux.ServeHTTP env0 ResponseWriter.fresh (mkRequest "GET" "*" none "")
      (Server.init [])).map (fun p => (p.1.code, p.2.trace)) = some (400, []) ∧
    routeOf "CONNECT" "" = Route.notFound ∧
    (mux.ServeHTTP env0 ResponseWriter.fresh (mkRequest "CONNECT" "" none "")
      (Server.init [])).map (fun p => (p.1.code, p.2.trace)) = some (404, []) := by
  decide

/-- C14, amended.  What the multiplexer does with every request.  A request for the path `*`
is answered with 400.  A request with a method other than CONNECT whose path is not clean
(not its own canonical form) is answered with a redirect (301) to the clean path, with a
slash added when the clean path is `/new` or `/metrics`.  Every other request, a CONNECT
request or one whose path is clean, is dispatched on its path: the paths `/new` and
`/metrics` are answered with a redirect (301) to the path with a slash added; otherwise the
multiplexer runs `postHandler` if the path begins with `/new/`, the metrics handler if it
begins with `/metrics/`, `rootHandler` for every other path that begins with a slash, and its
own not-found handler for a path that does not begin with a slash, which only a CONNECT
request can have.  On a path `/<k>` with `k` not empty, `rootHandler` asks the store for the
key `k`, everything after the leading slash. -/
theorem dispatch_of_every_request {σ : Type} (env : Env σ) (w : ResponseWriter) (r : Request)
    (s : Server σ) :
    (r.URL.Path = "*".toList →
      mux.ServeHTTP env w r s =
        some (({ w with header := w.header.Set "Connection".toList "close".toList }).WriteHeader
          StatusBadRequest, s)) ∧
    (r.URL.Path ≠ "*".toList → r.Method ≠ "CONNECT".toList →
      cleanPath r.URL.Path ≠ r.URL.Path →
      mux.ServeHTTP env w r s =
        some (Redirect env.relativeRef w r
          (env.urlString ⟨if cleanPath r.URL.Path = "/new".toList ∨
              cleanPath r.URL.Path = "/metrics".toList
            then cleanPath r.URL.Path ++ ['/'] else cleanPath r.URL.Path, r.URL.RawQuery⟩)
          StatusMovedPermanently, s)) ∧
    (r.URL.Path ≠ "*".toList →
      (r.Method = "CONNECT".toList ∨ cleanPath r.URL.Path = r.URL.Path) →
      (mux.ServeHTTP env w r s =
        if r.URL.Path = "/new".toList ∨ r.URL.Path = "/metrics".toList then
          some (Redirect env.relativeRef w r
            (env.urlString ⟨r.URL.Path ++ ['/'], r.URL.RawQuery⟩) StatusMovedPermanently, s)
        else if "/new/".toList.isPrefixOf r.URL.Path then postHandler env w r s
        else if "/metrics/".toList.isPrefixOf r.URL.Path then
          some (env.promhttp s.requestsCounter s.requestDurationGauge r w, s)
        else if "/".toList.isPrefixOf r.URL.Path then rootHandler env w r s
        else some (Error w "404 page not found".toList StatusNotFound, s)) ∧
      (r.Method ≠ "CONNECT".toList → "/".toList.isPrefixOf r.URL.Path = true)) ∧
    (∀ k, r.URL.Path = '/' :: k → k ≠ [] →
      ∃ w1 s1 t, rootHandler env w r s = some (w1, s1) ∧
        s1.trace = s.trace ++ Event.dbGet k :: t) := by
  refine ⟨ServeHTTP_star env w r s, ?_, ?_, ?_⟩
  · intro hstar hm hc
    exact ServeHTTP_unclean env w r s hm hstar (Or.inl hc)
  · intro hstar h
    by_cases hm : r.Method = "CONNECT".toList
    · exact ⟨ServeHTTP_connect env w r s hm hstar, fun h1 => absurd hm h1⟩
    · have hc : cleanPath r.URL.Path = r.URL.Path := by
        rcases h with h | h
        · exact absurd h hm
        · exact h
      obtain ⟨k, hk⟩ := cleanPath_rooted r.URL.Path
      rw [hc] at hk
      have hroot : "/".toList.isPrefixOf r.URL.Path = true := by
        rw [hk]; simp [List.isPrefixOf]
      refine ⟨?_, fun _ => hroot⟩
      by_cases hr : r.URL.Path = "/new".toList ∨ r.URL.Path = "/metrics".toList
      · have hr1 : cleanPath r.URL.Path = "/new".toList ∨
            cleanPath r.URL.Path = "/metrics".toList := by
          rw [hc]; exact hr
        rw [ServeHTTP_unclean env w r s hm hstar (Or.inr hr1), if_pos hr1, if_pos hr, hc]
      · have hn : r.URL.Path ≠ "/new".toList := fun e => hr (Or.inl e)
        have hme : r.URL.Path ≠ "/metrics".toList := fun e => hr (Or.inr e)
        rw [ServeHTTP_clean env w r s hm hc hn hme, if_neg hr, hroot]
        rfl
  · intro k hp hk
    exact rootHandler_asks env w r s k hp hk

theorem dispatch_of_every_request_witness :
    mux.ServeHTTP env0 ResponseWriter.fresh (mkRequest "GET" "*" none "") (Server.init []) =
      some (⟨[("Connection".toList, ["close".toList])], some 400, []⟩, Server.init []) ∧
    mux.ServeHTTP env0 ResponseWriter.fresh (mkRequest "GET" "/a//b" none "") (Server.init []) =
      some (Redirect env0.relativeRef ResponseWriter.fresh (mkRequest "GET" "/a//b" none "")
        "/a/b".toList StatusMovedPermanently, Server.init []) ∧
    mux.ServeHTTP env0 ResponseWriter.fresh (mkRequest "GET" "/new" none "") (Server.init []) =
      some (Redirect env0.relativeRef ResponseWriter.fresh (mkRequest "GET" "/new" none "")
        "/new/".toList StatusMovedPermanently, Server.init []) ∧
    mux.ServeHTTP env0 ResponseWriter.fresh (mkRequest "POST" "/new/foo" (some "secret") "v")
      (Server.init []) =
      postHandler env0 ResponseWriter.fresh (mkRequest "POST" "/new/foo" (some "secret") "v")
        (Server.init []) ∧
    mux.ServeHTTP env0 ResponseWriter.fresh (mkRequest "GET" "/foo" none "") (Server.init []) =
      rootHandler env0 ResponseWriter.fresh (mkRequest "GET" "/foo" none "") (Server.init []) ∧
    mux.ServeHTTP env0 ResponseWriter.fresh (mkRequest "CONNECT" "/new/../x" none "")
      (Server.init []) =
      postHandler env0 ResponseWriter.fresh (mkRequest "CONNECT" "/new/../x" none "")
        (Server.init []) ∧
    mux.ServeHTTP env0 ResponseWriter.fresh (mkRequest "CONNECT" "" none "") (Server.init []) =
      some (Error ResponseWriter.fresh "404 page not found".toList StatusNotFound,
        Server.init []) ∧
    (∃ w1 s1 t, rootHandler env0 ResponseWriter.fresh (mkRequest "GET" "/foo" none "")
        (Server.init []) = some (w1, s1) ∧
      s1.trace = (Server.init ([] : List (GoString × GoString))).trace
        ++ Event.dbGet "foo".toList :: t) :=
  ⟨(dispatch_of_every_request env0 ResponseWriter.fresh (mkRequest "GET" "*" none "")
      (Server.init [])).1 rfl,
   (dispatch_of_every_request env0 ResponseWriter.fresh (mkRequest "GET" "/a//b" none "")
      (Server.init [])).2.1 (by decide) (by decide) (by decide),
   ((dispatch_of_every_request env0 ResponseWriter.fresh (mkRequest "GET" "/new" none "")
      (Server.init [])).2.2.1 (by decide) (Or.inr (by decide))).1,
   ((dispatch_of_every_request env0 ResponseWriter.fresh
      (mkRequest "POST" "/new/foo" (some "secret") "v") (Server.init [])).2.2.1 (by decide)
      (Or.inr (by decide))).1,
   ((dispatch_of_every_request env0 ResponseWriter.fresh (mkRequest "GET" "/foo" none "")
      (Server.init [])).2.2.1 (by decide) (Or.inr (by decide))).1,
   ((dispatch_of_every_request env0 ResponseWriter.fresh
      (mkRequest "CONNECT" "/new/../x" none "") (Server.init [])).2.2.1 (by decide)
      (Or.inl (by decide))).1,
   ((dispatch_of_every_request env0 ResponseWriter.fresh (mkRequest "CONNECT" "" none "")
      (Server.init [])).2.2.1 (by decide) (Or.inl (by decide))).1,
   (dispatch_of_every_request env0 ResponseWriter.fresh (mkRequest "GET" "/foo" none "")
      (Server.init [])).2.2.2 "foo".toList rfl (by decide)⟩

/-! ## Clean paths -/

theorem splitOn_ne_nil (p : GoString) : splitOn '/' p ≠ [] := by
  cases p with
  | nil => simp [splitOn]
  | cons c cs =>
    unfold splitOn
    split
    · simp
    · split <;> simp

theorem splitOn_cons_slash (p : GoString) : splitOn '/' ('/' :: p) = [] :: splitOn '/' p := by
  rw [splitOn]; simp

theorem splitOn_cons_other (c : Char) (p : GoString) (hc : c ≠ '/') :
    ∃ seg rest, splitOn '/' p = seg :: rest ∧ splitOn '/' (c :: p) = (c :: seg) :: rest := by
  cases h : splitOn '/' p with
  | nil => exact absurd h (splitOn_ne_nil p)
  | cons seg rest =>
    refine ⟨seg, rest, rfl, ?_⟩
    rw [splitOn, if_neg hc, h]

theorem splitOn_slashfree (p : GoString) : ∀ seg ∈ splitOn '/' p, '/' ∉ seg := by
  induction p with
  | nil => intro seg h; simp [splitOn] at h; rw [h]; simp
  | cons c cs ih =>
    by_cases hc : c = '/'
    · subst hc
      rw [splitOn_cons_slash]
      intro seg h
      rcases List.mem_cons.mp h with e | e
      · rw [e]; simp
      · exact ih seg e
    · obtain ⟨s0, rest, h1, h2⟩ := splitOn_cons_other c cs hc
      rw [h2]
      rw [h1] at ih
      intro seg h
      rcases List.mem_cons.mp h with e | e
      · rw [e]
        intro hmem
        rcases List.mem_cons.mp hmem with e1 | e1
        · exact hc e1.symm
        · exact ih s0 (List.mem_cons_self _ _) e1
      · exact ih seg (List.mem_cons_of_mem _ e)

theorem splitOn_of_slashfree (a : GoString) (ha : '/' ∉ a) : splitOn '/' a = [a] := by
  induction a with
  | nil => rfl
  | cons c cs ih =>
    have hc : c ≠ '/' := fun e => ha (by rw [e]; exact List.mem_cons_self _ _)
    have hcs : '/' ∉ cs := fun e => ha (List.mem_cons_of_mem _ e)
    rw [splitOn, if_neg hc, ih hcs]

theorem splitOn_append_slash_cons (a y : GoString) (ha : '/' ∉ a) :
    splitOn '/' (a ++ '/' :: y) = a :: splitOn '/' y := by
  induction a with
  | nil => exact splitOn_cons_slash y
  | cons c cs ih =>
    have hc : c ≠ '/' := fun e => ha (by rw [e]; exact List.mem_cons_self _ _)
    have hcs : '/' ∉ cs := fun e => ha (List.mem_cons_of_mem _ e)
    show splitOn '/' (c :: (cs ++ '/' :: y)) = _
    rw [splitOn, if_neg hc, ih hcs]

theorem intercalate_cons_cons (a b : GoString) (rest : List GoString) :
    List.intercalate ['/'] (a :: b :: rest) = a ++ '/' :: List.intercalate ['/'] (b :: rest) := by
  simp [List.intercalate, List.intersperse]

theorem splitOn_intercalate (K : List GoString) (hK : K ≠ []) (hs : ∀ seg ∈ K, '/' ∉ seg) :
    splitOn '/' (List.intercalate ['/'] K) = K := by
  induction K with
  | nil => exact absurd rfl hK
  | cons a rest ih =>
    cases rest with
    | nil =>
      have : List.intercalate ['/'] [a] = a := by simp [List.intercalate, List.intersperse]
      rw [this]
      exact splitOn_of_slashfree a (hs a (List.mem_cons_self _ _))
    | cons b rest1 =>
      rw [intercalate_cons_cons, splitOn_append_slash_cons a _ (hs a (List.mem_cons_self _ _)),
        ih (by simp) (fun seg h => hs seg (List.mem_cons_of_mem _ h))]

theorem splitOn_snoc_slash (x : GoString) : splitOn '/' (x ++ ['/']) = splitOn '/' x ++ [[]] := by
  induction x with
  | nil => rfl
  | cons c cs ih =>
    by_cases hc : c = '/'
    · subst hc
      show splitOn '/' ('/' :: (cs ++ ['/'])) = _
      rw [splitOn_cons_slash, splitOn_cons_slash, ih]; rfl
    · obtain ⟨s0, rest, h1, h2⟩ := splitOn_cons_other c cs hc
      show splitOn '/' (c :: (cs ++ ['/'])) = _
      rw [h2, splitOn, if_neg hc, ih, h1]
      rfl


theorem cleanStep_mem (acc : List GoString) (s x : GoString)
    (h : x ∈ cleanStep true acc s) : x ∈ acc ∨ (x = s ∧ s ≠ "..".toList) := by
  unfold cleanStep at h
  by_cases h1 : s = [] ∨ s = ".".toList
  · rw [if_pos h1] at h; exact Or.inl h
  rw [if_neg h1] at h
  by_cases h2 : s = "..".toList
  · rw [if_pos h2] at h
    cases acc with
    | nil => simp at h
    | cons top rest =>
      simp only [] at h
      by_cases h3 : top = "..".toList
      · simp only [h3, if_true] at h
        rw [← h3] at h; exact Or.inl h
      · simp only [h3, if_false] at h
        exact Or.inl (List.mem_cons_of_mem _ h)
  · rw [if_neg h2] at h
    rcases List.mem_cons.mp h with e | e
    · exact Or.inr ⟨e, h2⟩
    · exact Or.inl e

theorem fold_kept (segs : List GoString) : ∀ (acc : List GoString) (x : GoString),
    x ∈ segs.foldl (cleanStep true) acc → x ∈ acc ∨ (x ∈ segs ∧ x ≠ "..".toList) := by
  induction segs with
  | nil => intro acc x h; exact Or.inl h
  | cons s rest ih =>
    intro acc x h
    rcases ih (cleanStep true acc s) x h with h1 | ⟨h1, h2⟩
    · rcases cleanStep_mem acc s x h1 with h2 | ⟨h2, h3⟩
      · exact Or.inl h2
      · exact Or.inr ⟨by rw [h2]; exact List.mem_cons_self _ _, by rw [h2]; exact h3⟩
    · exact Or.inr ⟨List.mem_cons_of_mem _ h1, h2⟩

theorem cleanStep_snoc (acc : List GoString) (s x : GoString) (hs : s ≠ "..".toList) :
    cleanStep true (acc ++ [x]) s = cleanStep true acc s ++ [x] := by
  unfold cleanStep
  by_cases h1 : s = [] ∨ s = ".".toList
  · rw [if_pos h1, if_pos h1]
  · rw [if_neg h1, if_neg h1, if_neg hs, if_neg hs]; rfl

theorem fold_snoc (segs : List GoString) : ∀ (acc : List GoString) (x : GoString),
    "..".toList ∉ segs →
    segs.foldl (cleanStep true) (acc ++ [x]) = segs.foldl (cleanStep true) acc ++ [x] := by
  induction segs with
  | nil => intro acc x _; rfl
  | cons s rest ih =>
    intro acc x h
    have hs : s ≠ "..".toList := fun e => h (by rw [e]; exact List.mem_cons_self _ _)
    have hr : "..".toList ∉ rest := fun e => h (List.mem_cons_of_mem _ e)
    rw [List.foldl_cons, List.foldl_cons, cleanStep_snoc acc s x hs, ih _ _ hr]

theorem Clean_rooted_eq (k : GoString) : Clean ('/' :: k) =
    '/' :: List.intercalate ['/'] ((splitOn '/' k).foldl (cleanStep true) []).reverse := by
  unfold Clean
  rw [splitOn_cons_slash]
  simp [cleanStep]

theorem cleanPath_rooted_eq (k : GoString) : cleanPath ('/' :: k) =
    if ('/' :: k).getLast? = some '/' ∧ Clean ('/' :: k) ≠ ['/'] then Clean ('/' :: k) ++ ['/']
    else Clean ('/' :: k) := by
  unfold cleanPath
  simp


theorem cleanPath_no_dotdot (k : GoString) (h : cleanPath ('/' :: k) = '/' :: k) :
    "..".toList ∉ splitOn '/' k := by
  intro hmem
  generalize hKdef : ((splitOn '/' k).foldl (cleanStep true) []).reverse = K at *
  have hK : ∀ x ∈ K, x ≠ "..".toList ∧ '/' ∉ x := by
    intro x hx
    rw [← hKdef] at hx
    rcases fold_kept _ [] x (List.mem_reverse.mp hx) with h1 | ⟨h1, h2⟩
    · simp at h1
    · exact ⟨h2, splitOn_slashfree k x h1⟩
  have hI : ∀ x ∈ splitOn '/' (List.intercalate ['/'] K), x = [] ∨ x ∈ K := by
    intro x hx
    by_cases hk : K = []
    · subst hk
      have e : List.intercalate ['/'] ([] : List GoString) = [] := by
        simp [List.intercalate]
      rw [e] at hx
      simp [splitOn] at hx
      exact Or.inl hx
    · rw [splitOn_intercalate K hk (fun seg hs => (hK seg hs).2)] at hx
      exact Or.inr hx
  have hnp : ∀ x ∈ splitOn '/' ('/' :: List.intercalate ['/'] K), x = [] ∨ x ∈ K := by
    intro x hx
    rw [splitOn_cons_slash] at hx
    rcases List.mem_cons.mp hx with e | e
    · exact Or.inl e
    · exact hI x e
  have hc : ∀ x ∈ splitOn '/' (cleanPath ('/' :: k)), x = [] ∨ x ∈ K := by
    intro x hx
    rw [cleanPath_rooted_eq, Clean_rooted_eq, hKdef] at hx
    split at hx
    · rw [splitOn_snoc_slash] at hx
      rcases List.mem_append.mp hx with e | e
      · exact hnp x e
      · simp at e; exact Or.inl e
    · exact hnp x hx
  have hin : "..".toList ∈ splitOn '/' (cleanPath ('/' :: k)) := by
    rw [h, splitOn_cons_slash]; exact List.mem_cons_of_mem _ hmem
  rcases hc _ hin with e | e
  · exact absurd e (by decide)
  · exact (hK _ e).1 rfl

theorem writable_of_clean (k : GoString) (h : cleanPath ('/' :: k) = '/' :: k) :
    cleanPath ("/new/".toList ++ k) = "/new/".toList ++ k := by
  by_cases hk : k = []
  · subst hk; decide
  have nd := cleanPath_no_dotdot k h
  have hsplit : splitOn '/' ("new".toList ++ '/' :: k) = "new".toList :: splitOn '/' k :=
    splitOn_append_slash_cons "new".toList k (by decide)
  have hfold : (splitOn '/' ("new".toList ++ '/' :: k)).foldl (cleanStep true) [] =
      (splitOn '/' k).foldl (cleanStep true) [] ++ ["new".toList] := by
    rw [hsplit, List.foldl_cons]
    have e : cleanStep true [] "new".toList = [] ++ ["new".toList] := by decide
    rw [e, fold_snoc _ _ _ nd]
  have hC : Clean ("/new/".toList ++ k) = '/' :: List.intercalate ['/']
      ("new".toList :: ((splitOn '/' k).foldl (cleanStep true) []).reverse) := by
    show Clean ('/' :: ("new".toList ++ '/' :: k)) = _
    rw [Clean_rooted_eq, hfold]
    simp
  have hP : cleanPath ("/new/".toList ++ k) =
      if ("/new/".toList ++ k).getLast? = some '/' ∧ Clean ("/new/".toList ++ k) ≠ ['/'] then
        Clean ("/new/".toList ++ k) ++ ['/']
      else Clean ("/new/".toList ++ k) :=
    cleanPath_rooted_eq ("new".toList ++ '/' :: k)
  have hlast : ("/new/".toList ++ k).getLast? = ('/' :: k).getLast? := by
    cases k with
    | nil => exact absurd rfl hk
    | cons c cs => simp [List.getLast?_cons_cons]
  rw [cleanPath_rooted_eq, Clean_rooted_eq] at h
  rw [hP, hC, hlast]
  generalize ((splitOn '/' k).foldl (cleanStep true) []).reverse = K at *
  cases K with
  | nil =>
    exfalso
    have e : List.intercalate ['/'] ([] : List GoString) = [] := by
      simp [List.intercalate]
    rw [e] at h
    simp at h
    exact hk h
  | cons b rest =>
    rw [intercalate_cons_cons]
    generalize List.intercalate ['/'] (b :: rest) = I at *
    have hne : ('/' :: ("new".toList ++ '/' :: I)) ≠ ['/'] := by
      intro e; exact absurd (List.cons.inj e).2 (by simp)
    by_cases hI : I = []
    · exfalso
      subst hI
      simp at h
      exact hk h
    have hne2 : ('/' :: I) ≠ ['/'] := by
      intro e; exact hI (List.cons.inj e).2
    by_cases hl : ('/' :: k).getLast? = some '/'
    · rw [if_pos ⟨hl, hne2⟩] at h
      rw [if_pos ⟨hl, hne⟩]
      have hk2 : k = I ++ ['/'] := (List.cons.inj h).2.symm
      rw [hk2]; simp
    · have hl1 : ¬ (('/' :: k).getLast? = some '/' ∧ ('/' :: I) ≠ ['/']) := fun e => hl e.1
      have hl2 : ¬ (('/' :: k).getLast? = some '/' ∧
          ('/' :: ("new".toList ++ '/' :: I)) ≠ ['/']) := fun e => hl e.1
      rw [if_neg hl1] at h
      rw [if_neg hl2]
      have hk2 : k = I := (List.cons.inj h).2.symm
      rw [hk2]; rfl

/-! ## The empty write -/

theorem ServeHTTP_writable {σ : Type} (env : Env σ) (w : ResponseWriter) (r : Request)
    (s : Server σ) (k : GoString) (hm : r.Method ≠ "CONNECT".toList)
    (hp : r.URL.Path = "/new/".toList ++ k) (hk : Writable k) :
    mux.ServeHTTP env w r s = postHandler env w r s := by
  have hc : cleanPath r.URL.Path = r.URL.Path := by
    rw [hp]; exact hk
  have hn : r.URL.Path ≠ "/new".toList := by
    rw [hp]; intro h
    have := congrArg List.length h
    simp at this
  have hme : r.URL.Path ≠ "/metrics".toList := by
    rw [hp]; intro h
    have h1 := congrArg (fun l => l.drop 1) h
    simp only [List.drop] at h1
    exact absurd (List.cons.inj h1).1 (by decide)
  have hpre : "/new/".toList.isPrefixOf r.URL.Path = true := by
    rw [hp]; simp [List.isPrefixOf]
  rw [ServeHTTP_clean env w r s hm hc hn hme, hpre]
  rfl

/-- The empty write on the handlers alone: for every non-empty key `k`, `postHandler` answers
a POST for `/new/<k>` with the configured token and an empty body with 201 when `Set`
succeeds, and on a store that behaves as a key-value map `rootHandler` then answers a request
for `/<k>` with 404. -/
theorem empty_write_handlers {σ : Type} (env : Env σ) (hl : env.db.Lawful) (s : Server σ)
    (k : GoString) (post get : Request) (hk : k ≠ [])
    (hpm : post.Method = MethodPost) (hpp : post.URL.Path = "/new/".toList ++ k)
    (hpt : post.Header.Get "Pbly-Token".toList = env.token) (hpb : post.Body = ⟨[], none⟩)
    (hset : (env.db.Set s.store k []).1 = none) (hgp : get.URL.Path = '/' :: k) :
    ∃ s1, postHandler env ResponseWriter.fresh post s = some (⟨[], some 201, []⟩, s1) ∧
      s1.trace = s.trace ++ [Event.readBody, Event.dbSet k []] ∧
      s1.store = (env.db.Set s.store k []).2 ∧
      env.db.Get s1.store k = .ok [] ∧
      rootHandler env ResponseWriter.fresh get s1 =
        some (⟨[], some 404, []⟩, s1.emit (.dbGet k)) := by
  have he : post.Body.err = none := by rw [hpb]
  have hd : post.Body.data = [] := by rw [hpb]
  have hget : env.db.Get (env.db.Set s.store k []).2 k = .ok [] := hl.get_set s.store k [] hset
  refine ⟨({ s.emit .readBody with store := (env.db.Set s.store k []).2 }).emit
    (.dbSet k []), ?_, ?_, rfl, hget, ?_⟩
  · rw [postHandler_key env _ post s k hpt hpm hpp, he, hd]
    simp only [hset]; rfl
  · simp [Server.emit]
  · rw [rootHandler_key env _ get _ k hgp hk]
    have hget1 : env.db.Get (({ s.emit .readBody with
        store := (env.db.Set s.store k []).2 }).emit (.dbSet k [])).store k = .ok [] := hget
    rw [hget1]
    rfl

/-- C16, as stated, fails.  After the empty write to the key `new/x` is answered with 201,
`GET /new/x` goes to `postHandler` and is answered with 403, not 404; and the empty write to
the key `a//b` is not accepted at all: the multiplexer redirects `POST /new/a//b` (301), as
it does the following `GET /a//b`.  Over a store whose `Set` fails, the empty write to the key
`foo` is answered with 500. -/
theorem empty_write_counterexample :
    writeThenGet "new/x" [] = some (201, 403, []) ∧
    writeThenGet "a//b" [] = some (301, 301, "/a/b".toList) ∧
    codeOf (mux.ServeHTTP envBroken ResponseWriter.fresh
      (mkRequest "POST" "/new/foo" (some "secret") "") (Server.init ())) = some 500 := by
  decide

/-- C16, amended.  An empty write is accepted but unresolvable, through the multiplexer and
over a store that behaves as a key-value map: for every non-empty key `k` that the
multiplexer resolves (`Resolvable`), a POST for `/new/<k>` with the configured token and an
empty body, whose `Set` succeeds, is answered with 201 and stores the empty value under `k`;
a following `GET /<k>` is answered with 404 and an empty body, the response `GET /<k>` gets
in any state where the store holds no value for `k`. -/
theorem empty_write_unresolvable {σ : Type} (env : Env σ) (hl : env.db.Lawful) (s : Server σ)
    (k : GoString) (post get : Request)
    (hk : k ≠ []) (hres : Resolvable k)
    (hpm : post.Method = MethodPost) (hpp : post.URL.Path = "/new/".toList ++ k)
    (hpt : post.Header.Get "Pbly-Token".toList = env.token) (hpb : post.Body = ⟨[], none⟩)
    (hset : (env.db.Set s.store k []).1 = none)
    (hgm : get.Method = "GET".toList) (hgp : get.URL.Path = '/' :: k) :
    ∃ s1, mux.ServeHTTP env ResponseWriter.fresh post s = some (⟨[], some 201, []⟩, s1) ∧
      s1.trace = s.trace ++ [Event.readBody, Event.dbSet k []] ∧
      s1.store = (env.db.Set s.store k []).2 ∧
      env.db.Get s1.store k = .ok [] ∧
      mux.ServeHTTP env ResponseWriter.fresh get s1 =
        some (⟨[], some 404, []⟩, s1.emit (.dbGet k)) ∧
      ∀ s0 : Server σ, env.db.Get s0.store k = .ok [] →
        (mux.ServeHTTP env ResponseWriter.fresh get s0).map Prod.fst =
          (mux.ServeHTTP env ResponseWriter.fresh get s1).map Prod.fst := by
  have hpc : post.Method ≠ "CONNECT".toList := by
    rw [hpm]; decide
  have hgc : get.Method ≠ "CONNECT".toList := by
    rw [hgm]; decide
  have hwr : Writable k := writable_of_clean k hres.1
  obtain ⟨s1, h1, h2, h3, h4, h5⟩ :=
    empty_write_handlers env hl s k post get hk hpm hpp hpt hpb hset hgp
  have hget1 : mux.ServeHTTP env ResponseWriter.fresh get s1 =
      some (⟨[], some 404, []⟩, s1.emit (.dbGet k)) := by
    rw [ServeHTTP_resolvable env _ get s1 k hgc hgp hres]; exact h5
  refine ⟨s1, ?_, h2, h3, h4, hget1, ?_⟩
  · rw [ServeHTTP_writable env _ post s k hpc hpp hwr]; exact h1
  · intro s0 h0
    rw [hget1, ServeHTTP_resolvable env _ get s0 k hgc hgp hres,
      rootHandler_key env _ get s0 k hgp hk, h0]
    rfl

theorem empty_write_unresolvable_witness :
    env0.db.Lawful ∧ "foo".toList ≠ [] ∧ Resolvable "foo".toList ∧
    (mkRequest "POST" "/new/foo" (some "secret") "").Header.Get "Pbly-Token".toList
      = env0.token ∧
    (env0.db.Set (Server.init [("foo".toList, "old".toList)]).store "foo".toList []).1 = none ∧
    ∃ s1, mux.ServeHTTP env0 ResponseWriter.fresh
        (mkRequest "POST" "/new/foo" (some "secret") "")
        (Server.init [("foo".toList, "old".toList)]) = some (⟨[], some 201, []⟩, s1) ∧
      s1.trace = (Server.init [("foo".toList, "old".toList)]).trace
        ++ [Event.readBody, Event.dbSet "foo".toList []] ∧
      s1.store = (env0.db.Set (Server.init [("foo".toList, "old".toList)]).store
        "foo".toList []).2 ∧
      env0.db.Get s1.store "foo".toList = .ok [] ∧
      mux.ServeHTTP env0 ResponseWriter.fresh (mkRequest "GET" "/foo" none "") s1 =
        some (⟨[], some 404, []⟩, s1.emit (.dbGet "foo".toList)) ∧
      ∀ s0 : Server (List (GoString × GoString)), env0.db.Get s0.store "foo".toList = .ok [] →
        (mux.ServeHTTP env0 ResponseWriter.fresh (mkRequest "GET" "/foo" none "") s0).map
            Prod.fst =
          (mux.ServeHTTP env0 ResponseWriter.fresh (mkRequest "GET" "/foo" none "") s1).map
            Prod.fst :=
  ⟨mapDB_lawful, by decide, by decide, by decide, rfl,
    empty_write_unresolvable env0 mapDB_lawful (Server.init [("foo".toList, "old".toList)])
      "foo".toList (mkRequest "POST" "/new/foo" (some "secret") "")
      (mkRequest "GET" "/foo" none "") (by decide) (by decide) (by decide) rfl
      (by decide) rfl rfl (by decide) rfl⟩

/-! ## What the wrapper records -/

theorem logLines_append (t u : List Event) : logLines (t ++ u) = logLines t ++ logLines u := by
  simp [logLines, List.filterMap_append]

/-- The wrapper on a request whose URL and method are valid label values observes and does
not transform: the client gets the response of the multiplexer, and the access line, the last
effect of the request, records the status code of that response and the length of its
body. -/
theorem wrappedMux_observes {σ : Type} (env : Env σ) (r : Request) (dt : Int) (s : Server σ)
    (hu : ValidString (env.urlString r.URL) = true) (hm : ValidString r.Method = true) :
    ∃ w s1, mux.ServeHTTP env ResponseWriter.fresh r s = some (w, s1) ∧
      responseOf (wrappedMux env r dt s) = some w ∧
      (after (wrappedMux env r dt s)).trace = s1.trace ++
        [Event.log (LogEntry.access r.Method (env.urlString r.URL) w.code dt w.body.length)] ∧
      (after (wrappedMux env r dt s)).requestsCounter =
        s.requestsCounter.Inc ⟨env.urlString r.URL, r.Method, sprintfD w.code⟩ := by
  obtain ⟨w, s1, h, hw⟩ := wrappedMux_valid env r dt s hu hm
  refine ⟨w, s1, h, ?_, ?_, ?_⟩ <;> rw [hw] <;> rfl

/-- C11, at a failing input.  For the request `GET /?q` with the byte 0xFF as query the
multiplexer produces the response 200 with the banner, but the wrapper panics in
`WithLabelValues` after the access line is logged, and the response does not reach the
client. -/
theorem response_lost :
    (mux.ServeHTTP env0 ResponseWriter.fresh rawQueryRequest (Server.init [])).map Prod.fst =
      some ⟨[], some 200, "pbly is a link shortener".toList⟩ ∧
    responseOf (wrappedMux env0 rawQueryRequest 1000 (Server.init [])) = none ∧
    logLines (after (wrappedMux env0 rawQueryRequest 1000 (Server.init []))).trace =
      [LogEntry.access "GET".toList ['/', '?', Char.ofNat 255] 200 1000 24] := by
  decide

/-- C12, as stated, fails.  A `GET /foo` whose `Get` fails produces two log entries, the
error line of `rootHandler` and the access line of the wrapper.  And a `GET /new/x` over the
same failing store is answered by `postHandler` with 403: the store is not called, and the
counter series incremented is the one with status 403. -/
theorem read_failure_counterexample :
    logLines (after (wrappedMux envBroken (mkRequest "GET" "/foo" none "") 1000
      (Server.init ()))).trace =
      [LogEntry.err "disk failure".toList,
        LogEntry.access "GET".toList "/foo".toList 500 1000 0] ∧
    envBroken.db.Get () "new/x".toList = .error "disk failure".toList ∧
    (after (wrappedMux envBroken (mkRequest "GET" "/new/x" none "") 1000
      (Server.init ()))).trace =
      [Event.log (LogEntry.access "GET".toList "/new/x".toList 403 1000 0)] ∧
    (after (wrappedMux envBroken (mkRequest "GET" "/new/x" none "") 1000
      (Server.init ()))).requestsCounter =
      [(⟨"/new/x".toList, "GET".toList, "403".toList⟩, 1)] :=
  ⟨by decide, rfl, by decide, by decide⟩

/-- C12, amended.  Store failure on read: for every `GET /<k>` with a non-empty key `k` that
the multiplexer resolves (`Resolvable`), whose URL is a valid label value and whose `Get`
fails, the response is status 500 with an empty body; the request makes one store call and
produces exactly two log entries, the error line of `rootHandler` and then the access line of
the wrapper with status 500; and exactly one counter series is incremented, by one, the one
labelled with the URL, the method and `500`. -/
theorem read_failure_recorded {σ : Type} (env : Env σ) (r : Request) (dt : Int) (s : Server σ)
    (k err : GoString)
    (hm : r.Method = "GET".toList) (hp : r.URL.Path = '/' :: k) (hk : k ≠ [])
    (hres : Resolvable k) (hu : ValidString (env.urlString r.URL) = true)
    (hget : env.db.Get s.store k = .error err) :
    ∃ s2, wrappedMux env r dt s = .ok (⟨[], some 500, []⟩, s2) ∧
      s2.trace = s.trace ++ [Event.dbGet k, Event.log (LogEntry.err err),
        Event.log (LogEntry.access "GET".toList (env.urlString r.URL) 500 dt 0)] ∧
      logLines s2.trace = logLines s.trace ++ [LogEntry.err err,
        LogEntry.access "GET".toList (env.urlString r.URL) 500 dt 0] ∧
      s2.requestsCounter.value ⟨env.urlString r.URL, "GET".toList, "500".toList⟩ =
        some ((s.requestsCounter.value
          ⟨env.urlString r.URL, "GET".toList, "500".toList⟩).getD 0 + 1) ∧
      (∀ l1, l1 ≠ ⟨env.urlString r.URL, "GET".toList, "500".toList⟩ →
        s2.requestsCounter.value l1 = s.requestsCounter.value l1) ∧
      s2.requestsCounter.total = s.requestsCounter.total + 1 := by
  have hc : r.Method ≠ "CONNECT".toList := by
    rw [hm]; decide
  have hvm : ValidString r.Method = true := by
    rw [hm]; decide
  have hS : mux.ServeHTTP env ResponseWriter.fresh r s =
      some (⟨[], some 500, []⟩, (s.emit (.dbGet k)).emit (.log (.err err))) := by
    rw [ServeHTTP_resolvable env _ r s k hc hp hres, rootHandler_key env _ r s k hp hk, hget]
    rfl
  obtain ⟨w, s1, h, hw⟩ := wrappedMux_valid env r dt s hu hvm
  rw [hS] at h
  injection h with h; injection h with h1 h2
  subst h1; subst h2
  have h500 : sprintfD (ResponseWriter.code ⟨[], some 500, []⟩) = "500".toList := by decide
  have hcode : ResponseWriter.code ⟨[], some 500, []⟩ = 500 := rfl
  rw [h500, hcode, hm] at hw
  have hlen : (⟨[], some 500, []⟩ : ResponseWriter).body.length = 0 := rfl
  rw [hlen] at hw
  have htrace : ((s.emit (.dbGet k)).emit (.log (.err err))).trace ++
      [Event.log (LogEntry.access "GET".toList (env.urlString r.URL) 500 dt 0)] =
      s.trace ++ [Event.dbGet k, Event.log (LogEntry.err err),
        Event.log (LogEntry.access "GET".toList (env.urlString r.URL) 500 dt 0)] := by
    simp [Server.emit]
  refine ⟨_, hw, htrace, ?_, ?_, ?_, ?_⟩
  · show logLines (((s.emit (.dbGet k)).emit (.log (.err err))).trace ++ _) = _
    rw [htrace, logLines_append]
    rfl
  · exact value_update_self _ _ _
  · intro l1 h; exact value_update_other _ _ _ _ h
  · exact total_Inc _ _

theorem read_failure_recorded_witness :
    (mkRequest "GET" "/foo" none "").Method = "GET".toList ∧ "foo".toList ≠ [] ∧
    Resolvable "foo".toList ∧
    ValidString (envBroken.urlString (mkRequest "GET" "/foo" none "").URL) = true ∧
    envBroken.db.Get (Server.init ()).store "foo".toList = .error "disk failure".toList ∧
    ∃ s2, wrappedMux envBroken (mkRequest "GET" "/foo" none "") 1000 (Server.init ()) =
        .ok (⟨[], some 500, []⟩, s2) ∧
      s2.trace = (Server.init ()).trace ++ [Event.dbGet "foo".toList,
        Event.log (LogEntry.err "disk failure".toList),
        Event.log (LogEntry.access "GET".toList
          (envBroken.urlString (mkRequest "GET" "/foo" none "").URL) 500 1000 0)] ∧
      logLines s2.trace = logLines (Server.init ()).trace ++
        [LogEntry.err "disk failure".toList,
          LogEntry.access "GET".toList
            (envBroken.urlString (mkRequest "GET" "/foo" none "").URL) 500 1000 0] ∧
      s2.requestsCounter.value ⟨envBroken.urlString (mkRequest "GET" "/foo" none "").URL,
          "GET".toList, "500".toList⟩ =
        some (((Server.init ()).requestsCounter.value
          ⟨envBroken.urlString (mkRequest "GET" "/foo" none "").URL,
            "GET".toList, "500".toList⟩).getD 0 + 1) ∧
      (∀ l1, l1 ≠ ⟨envBroken.urlString (mkRequest "GET" "/foo" none "").URL,
          "GET".toList, "500".toList⟩ →
        s2.requestsCounter.value l1 = (Server.init ()).requestsCounter.value l1) ∧
      s2.requestsCounter.total = (Server.init ()).requestsCounter.total + 1 :=
  ⟨by decide, by decide, by decide, by decide, rfl,
    read_failure_recorded envBroken (mkRequest "GET" "/foo" none "") 1000 (Server.init ())
      "foo".toList "disk failure".toList (by decide) rfl (by decide) (by decide) (by decide)
      rfl⟩

end Pbly
